import Mathlib

/-!
Verification of the metadata-extraction layer of the metalens repository:
the four format-specific analyzers in src/utils (parquet.py, delta.py,
iceberg.py, hudi.py) are shallowly embedded as Lean functions and the
spec's testable properties are settled against them.

Modelling conventions, used uniformly below:
* Parsed JSON documents are values of the `Json` inductive; the Python step
  `json.loads`/`json.load` applied to bytes read from storage is modelled by
  supplying the already-parsed `Json` value as input (parse failures of raw
  bytes are outside the embedded layer).
* Python `dict.get` and `'k' in d` are modelled by `Json.getKey` /
  `Json.hasKey`, which look a key up in an object and yield nothing on a
  non-object.  (On such malformed documents the Python code generally raises
  before producing any result; the model is permissive there and those inputs
  are not relied on by any theorem.)
* Python machine integers are unbounded, so `Int`/`Nat` model them exactly.
* `os.listdir` / S3 pagination give a listing of names; reading a listed
  file is modelled by a total `read` function attached to the input, since a
  listed file can always be opened.
* Python `list.sort`/`sorted` is a stable ascending sort; it is modelled by
  a structurally recursive stable insertion sort (`insertSorted`), which is
  extensionally identical to any stable ascending sort on the same key.
-/

/-- JSON values as produced by Python's json.loads: null, booleans, numbers
(restricted to integers, the only numbers occurring in the metadata the
analyzers read), strings, arrays, and objects as key/value lists. -/
inductive Json where
  | null : Json
  | bool : Bool → Json
  | num : Int → Json
  | str : String → Json
  | arr : List Json → Json
  | obj : List (String × Json) → Json

mutual

/-- Structural equality of JSON values (Python `==` on parsed documents,
with objects compared as the key/value lists they were parsed into). -/
def Json.beq : Json → Json → Bool
  | .null, .null => true
  | .bool a, .bool b => a == b
  | .num a, .num b => a == b
  | .str a, .str b => a == b
  | .arr xs, .arr ys => Json.beqList xs ys
  | .obj xs, .obj ys => Json.beqObj xs ys
  | _, _ => false

/-- Elementwise `Json.beq` on arrays. -/
def Json.beqList : List Json → List Json → Bool
  | [], [] => true
  | x :: xs, y :: ys => Json.beq x y && Json.beqList xs ys
  | _, _ => false

/-- Elementwise `Json.beq` on object bindings. -/
def Json.beqObj : List (String × Json) → List (String × Json) → Bool
  | [], [] => true
  | (k1, v1) :: xs, (k2, v2) :: ys =>
      k1 == k2 && Json.beq v1 v2 && Json.beqObj xs ys
  | _, _ => false

end

mutual

theorem Json.eq_of_beq : ∀ (a b : Json), Json.beq a b = true → a = b
  | .null, .null, _ => rfl
  | .bool x, .bool y, h => by
      simp only [Json.beq, beq_iff_eq] at h; exact congrArg Json.bool h
  | .num x, .num y, h => by
      simp only [Json.beq, beq_iff_eq] at h; exact congrArg Json.num h
  | .str x, .str y, h => by
      simp only [Json.beq, beq_iff_eq] at h; exact congrArg Json.str h
  | .arr xs, .arr ys, h => by
      simp only [Json.beq] at h
      exact congrArg Json.arr (Json.eqList_of_beqList xs ys h)
  | .obj xs, .obj ys, h => by
      simp only [Json.beq] at h
      exact congrArg Json.obj (Json.eqObj_of_beqObj xs ys h)
  | .null, .bool _, h => by simp [Json.beq] at h
  | .null, .num _, h => by simp [Json.beq] at h
  | .null, .str _, h => by simp [Json.beq] at h
  | .null, .arr _, h => by simp [Json.beq] at h
  | .null, .obj _, h => by simp [Json.beq] at h
  | .bool _, .null, h => by simp [Json.beq] at h
  | .bool _, .num _, h => by simp [Json.beq] at h
  | .bool _, .str _, h => by simp [Json.beq] at h
  | .bool _, .arr _, h => by simp [Json.beq] at h
  | .bool _, .obj _, h => by simp [Json.beq] at h
  | .num _, .null, h => by simp [Json.beq] at h
  | .num _, .bool _, h => by simp [Json.beq] at h
  | .num _, .str _, h => by simp [Json.beq] at h
  | .num _, .arr _, h => by simp [Json.beq] at h
  | .num _, .obj _, h => by simp [Json.beq] at h
  | .str _, .null, h => by simp [Json.beq] at h
  | .str _, .bool _, h => by simp [Json.beq] at h
  | .str _, .num _, h => by simp [Json.beq] at h
  | .str _, .arr _, h => by simp [Json.beq] at h
  | .str _, .obj _, h => by simp [Json.beq] at h
  | .arr _, .null, h => by simp [Json.beq] at h
  | .arr _, .bool _, h => by simp [Json.beq] at h
  | .arr _, .num _, h => by simp [Json.beq] at h
  | .arr _, .str _, h => by simp [Json.beq] at h
  | .arr _, .obj _, h => by simp [Json.beq] at h
  | .obj _, .null, h => by simp [Json.beq] at h
  | .obj _, .bool _, h => by simp [Json.beq] at h
  | .obj _, .num _, h => by simp [Json.beq] at h
  | .obj _, .str _, h => by simp [Json.beq] at h
  | .obj _, .arr _, h => by simp [Json.beq] at h

theorem Json.eqList_of_beqList :
    ∀ (a b : List Json), Json.beqList a b = true → a = b
  | [], [], _ => rfl
  | x :: xs, y :: ys, h => by
      simp only [Json.beqList, Bool.and_eq_true] at h
      rw [Json.eq_of_beq x y h.1, Json.eqList_of_beqList xs ys h.2]
  | [], _ :: _, h => by simp [Json.beqList] at h
  | _ :: _, [], h => by simp [Json.beqList] at h

theorem Json.eqObj_of_beqObj :
    ∀ (a b : List (String × Json)), Json.beqObj a b = true → a = b
  | [], [], _ => rfl
  | (k1, v1) :: xs, (k2, v2) :: ys, h => by
      simp only [Json.beqObj, Bool.and_eq_true, beq_iff_eq] at h
      rw [h.1.1, Json.eq_of_beq v1 v2 h.1.2, Json.eqObj_of_beqObj xs ys h.2]
  | [], _ :: _, h => by simp [Json.beqObj] at h
  | _ :: _, [], h => by simp [Json.beqObj] at h

end

mutual

theorem Json.beq_refl : ∀ (a : Json), Json.beq a a = true
  | .null => rfl
  | .bool x => by simp [Json.beq]
  | .num x => by simp [Json.beq]
  | .str x => by simp [Json.beq]
  | .arr xs => by simp only [Json.beq]; exact Json.beqList_refl xs
  | .obj xs => by simp only [Json.beq]; exact Json.beqObj_refl xs

theorem Json.beqList_refl : ∀ (a : List Json), Json.beqList a a = true
  | [] => rfl
  | x :: xs => by
      simp only [Json.beqList, Bool.and_eq_true]
      exact ⟨Json.beq_refl x, Json.beqList_refl xs⟩

theorem Json.beqObj_refl : ∀ (a : List (String × Json)), Json.beqObj a a = true
  | [] => rfl
  | (k, v) :: xs => by
      simp [Json.beqObj, Json.beq_refl v, Json.beqObj_refl xs]

end

instance : BEq Json := ⟨Json.beq⟩

instance : LawfulBEq Json where
  eq_of_beq h := Json.eq_of_beq _ _ h
  rfl := Json.beq_refl _

instance : DecidableEq Json := fun a b =>
  decidable_of_iff (Json.beq a b = true)
    ⟨Json.eq_of_beq a b, fun h => h ▸ Json.beq_refl a⟩

namespace Json

/-- Python `d[k]` / `d.get(k)` on an object: first binding of the key.
Python dicts have unique keys, so first-match lookup is exact. -/
def getKey : Json → String → Option Json
  | .obj kvs, k => (kvs.find? (fun kv => kv.1 == k)).map (fun kv => kv.2)
  | _, _ => none

/-- Python `'k' in d` for a dict. -/
def hasKey (j : Json) (k : String) : Bool := (j.getKey k).isSome

/-- Python `isinstance(x, dict)`. -/
def isObj : Json → Bool
  | .obj _ => true
  | _ => false

/-- Python truthiness of a JSON value. -/
def truthy : Json → Bool
  | .null => false
  | .bool b => b
  | .num n => n != 0
  | .str s => s != ""
  | .arr xs => !xs.isEmpty
  | .obj kvs => !kvs.isEmpty

end Json

/-! ### String helpers

Structurally recursive counterparts of the Python string operations the
analyzers use, defined over the character list of a string so that concrete
inputs evaluate by kernel reduction. -/

/-- Split a character list at every occurrence of `c`, keeping empty pieces:
Python `s.split(c)`. -/
def splitCharList (c : Char) : List Char → List (List Char)
  | [] => [[]]
  | x :: xs =>
    let rest := splitCharList c xs
    if x = c then [] :: rest
    else
      match rest with
      | r :: rs => (x :: r) :: rs
      | [] => [[x]]

/-- Python `s.split(c)` on strings. -/
def pySplit (c : Char) (s : String) : List String :=
  (splitCharList c s.data).map (fun l => String.mk l)

/-- Python `sfx in` suffix test `s.endswith(sfx)`. -/
def strEndsWith (s sfx : String) : Bool :=
  s.data.reverse.take sfx.data.length == sfx.data.reverse

/-- Python `s.startswith(c)` for a single character. -/
def strStartsWithChar (s : String) (c : Char) : Bool :=
  match s.data with
  | [] => false
  | x :: _ => x = c

/-- Whitespace characters removed by Python `str.strip()` (the ones that can
occur in properties files). -/
def isWsChar (c : Char) : Bool :=
  c = ' ' || c = '\t' || c = '\n' || c = '\r' || c = '\x0b' || c = '\x0c'

/-- Python `s.strip()`. -/
def pyStrip (s : String) : String :=
  String.mk (((s.data.dropWhile isWsChar).reverse.dropWhile isWsChar).reverse)

/-- Value of a decimal digit. -/
def charDigit? (c : Char) : Option Nat :=
  if c.isDigit then some (c.toNat - '0'.toNat) else none

/-- Python `int(s)` for the non-negative version numbers embedded in Delta
log filenames: all-digit, non-empty strings. -/
def natOfDigits? : List Char → Option Nat
  | [] => none
  | cs => cs.foldlM (fun acc c => (charDigit? c).map (fun d => acc * 10 + d)) 0

/-- Replace every occurrence of the pattern `p :: ps` by `rep`
(non-overlapping, left to right): Python `s.replace(pat, rep)` with a
non-empty pattern.  The fuel argument, always called with at least the
length of the list, only makes the recursion structural: every step
consumes at least one character. -/
def replaceCharsAux (p : Char) (ps rep : List Char) : Nat → List Char → List Char
  | 0, l => l
  | _ + 1, [] => []
  | fuel + 1, x :: xs =>
    if (p :: ps).isPrefixOf (x :: xs) then
      rep ++ replaceCharsAux p ps rep fuel ((x :: xs).drop (ps.length + 1))
    else
      x :: replaceCharsAux p ps rep fuel xs

/-- Python `s.replace(pat, rep)` (all occurrences) for a non-empty pattern. -/
def pyReplace (s : String) (p : Char) (ps : List Char) (rep : List Char) : String :=
  String.mk (replaceCharsAux p ps rep s.data.length s.data)

/-- Insert `a` into a list sorted ascending by the strict comparison `lt`,
placing `a` before any element it ties with (so that the fold below is a
stable sort). -/
def insertSorted (lt : α → α → Bool) (a : α) : List α → List α
  | [] => [a]
  | b :: bs => if lt b a then b :: insertSorted lt a bs else a :: b :: bs

/-- Stable ascending sort, modelling Python `list.sort()` / `sorted()`. -/
def stableSort (lt : α → α → Bool) : List α → List α
  | [] => []
  | a :: as => insertSorted lt a (stableSort lt as)

/-- Python `l[-n:]`: the last `n` elements (the whole list when shorter). -/
def takeLast (n : Nat) (l : List α) : List α := l.drop (l.length - n)

/-- Python `f"{n:,}"`: decimal digits grouped in threes by commas, applied to
the reversed digit list. -/
def commaGroupRev : List Char → List Char
  | [] => []
  | [a] => [a]
  | [a, b] => [a, b]
  | [a, b, c] => [a, b, c]
  | a :: b :: c :: d :: rest => a :: b :: c :: ',' :: commaGroupRev (d :: rest)

/-- Python `f"{n:,}"` for a natural number. -/
def commaFormatNat (n : Nat) : String :=
  String.mk ((commaGroupRev (toString n).data.reverse).reverse)

/-- Python `f"{n:,}"` for an integer. -/
def commaFormatInt (i : Int) : String :=
  if i < 0 then "-" ++ commaFormatNat i.natAbs else commaFormatNat i.natAbs

/-- Map a fallible function over a list, failing at the first error: the
semantics of a Python loop or comprehension whose body may raise. -/
def exceptMapList (f : α → Except ε β) : List α → Except ε (List β)
  | [] => .ok []
  | x :: xs => do
    let y ← f x
    let ys ← exceptMapList f xs
    .ok (y :: ys)

/-- Fold a fallible step over a list, failing at the first error: the
semantics of a Python accumulation loop whose body may raise. -/
def exceptFoldList (f : σ → α → Except ε σ) : σ → List α → Except ε σ
  | s, [] => .ok s
  | s, x :: xs =>
    match f s x with
    | .ok s2 => exceptFoldList f s2 xs
    | .error e => .error e

/-- A statistics entry that is either a number or a sentinel string —
Python dict values like `total_files if total_files > 0 else "Unknown"`. -/
inductive StatVal where
  | count (n : Nat) : StatVal
  | str (s : String) : StatVal
deriving DecidableEq

/-! ## ParquetAnalyzer (src/utils/parquet.py) -/

/-- An S3 object descriptor as yielded by `list_objects_v2`: key and size. -/
structure S3Object where
  key : String
  size : Nat
deriving DecidableEq

/-- `part.split('=')[0]` (parquet.py:185): the substring of a path segment
before its first `=`. -/
def partColName (part : String) : String :=
  String.mk (part.data.takeWhile (fun c => c ≠ '='))

/-- `infer_partitions_from_paths` (parquet.py:165-188): split each key on
`/`; every segment containing `=` contributes the substring before its first
`=`; the results are collected into a set.  Python iterates a `set` in an
unspecified order before `list(...)`; the model keeps first-insertion order,
and only membership in the result is meaningful. -/
def infer_partitions_from_paths (file_objects : List S3Object) : List String :=
  let paths := file_objects.map (fun o => o.key)
  paths.foldl
    (fun acc path =>
      (pySplit '/' path).foldl
        (fun acc part =>
          if part.data.contains '=' then
            let col_name := partColName part
            if acc.contains col_name then acc else acc ++ [col_name]
          else acc)
        acc)
    []

/-- One field of a parquet file's embedded arrow schema: name and the native
type spelling `str(field.type)`. -/
structure ArrowField where
  name : String
  type : String
deriving DecidableEq

/-- The information `analyze_s3_parquet` reads out of the first parquet
file: its arrow schema, `metadata.created_by`, `metadata.num_columns` and the
first (at most 10 row) record batch used as preview. -/
structure ParquetContent where
  fields : List ArrowField
  createdBy : Option String
  numColumns : Nat
  firstBatch : List (List Json)
deriving DecidableEq

/-- A listed S3 object together with the parquet content that would be
obtained by fetching and reading it. -/
structure S3ParquetFile where
  key : String
  size : Nat
  content : ParquetContent
deriving DecidableEq

/-- One row of the schema DataFrame built by the parquet analyzers:
`Column` / `Type` / `Partition`. -/
structure ParquetSchemaRow where
  column : String
  type : String
  partitionFlag : String
deriving DecidableEq

/-- Result of `analyze_s3_parquet` (parquet.py:145-161).  The rendered size
string is a float formatting of `sizeBytes` (not modelled; no property
depends on it), so the raw byte total is kept instead. -/
structure S3ParquetResult where
  schema : List ParquetSchemaRow
  created_by : String
  location : String
  num_columns : Nat
  files : Nat
  sizeBytes : Nat
  rows : String
  partitionsCount : Nat
  preview_data : List (List Json)
  partitions : List String
deriving DecidableEq

/-- The row update of `schema_df.loc[schema_df['Column'] == col,
'Partition'] = 'Yes'` (parquet.py:143) on a single row. -/
def updOne (col : String) (r : ParquetSchemaRow) : ParquetSchemaRow :=
  if r.column == col then { r with partitionFlag := "Yes" } else r

/-- The partition-flag update loop of parquet.py:141-143: for each inferred
column present among the schema's `Column` values, set the `Partition` of
the rows with that `Column` to `"Yes"`. -/
def updatePartitionFlags (rows : List ParquetSchemaRow) (cols : List String) :
    List ParquetSchemaRow :=
  cols.foldl
    (fun rs col =>
      if (rs.map (fun r => r.column)).contains col then rs.map (updOne col)
      else rs)
    rows

/-- `analyze_s3_parquet` (parquet.py:63-163).  The input is the S3 listing
under the requested prefix, each object paired with its parquet content;
URI parsing and the boto3 client are connection plumbing outside the
embedded layer.  Returns the error raised when no `.parquet` object is
listed. -/
def analyze_s3_parquet (s3_path : String) (listing : List S3ParquetFile) :
    Except String S3ParquetResult :=
  let parquet_files := listing.filter (fun f => strEndsWith f.key ".parquet")
  match parquet_files with
  | [] => .error ("No Parquet files found at " ++ s3_path)
  | first :: _ =>
    let schema0 : List ParquetSchemaRow :=
      first.content.fields.map (fun fld => ⟨fld.name, fld.type, "No"⟩)
    let total_size := (parquet_files.map (fun f => f.size)).sum
    let partition_cols :=
      infer_partitions_from_paths (parquet_files.map (fun f => ⟨f.key, f.size⟩))
    let schema_df := updatePartitionFlags schema0 partition_cols
    .ok
      { schema := schema_df
        created_by :=
          match first.content.createdBy with
          | some s => if s ≠ "" then s else "Unknown"
          | none => "Unknown"
        location := s3_path
        num_columns := first.content.numColumns
        files := parquet_files.length
        sizeBytes := total_size
        rows := "Unknown"
        partitionsCount := partition_cols.length
        preview_data := first.content.firstBatch
        partitions := partition_cols }

/-! ## DeltaAnalyzer (src/utils/delta.py)

Both the local and the S3 branch of `analyze_delta_log` list the
`_delta_log` directory, split the names into `.checkpoint.parquet` and
`.json` groups, sort each group by the integer version before the first
`.` of the (base)name, and then either read the latest checkpoint or the
last 10 json logs.  The two branches differ only in storage plumbing, so a
single model covers both: the input is the listing plus a read function. -/

/-- One row of a checkpoint parquet table as seen through
`to_pandas().itertuples()`: the `add` column as its parsed JSON value when
present and non-empty (the code tests `hasattr(row, 'add') and row.add`
before `json.loads(row.add)`), and the `commitInfo` column, which the code
never reads because an itertuples row is a namedtuple, not a dict. -/
structure CkptRow where
  add : Option Json
  commitInfo : Option Json
deriving DecidableEq

/-- What reading a file under `_delta_log` yields: a parquet table of
checkpoint rows, or a text file whose lines each parse as one JSON
action. -/
inductive DeltaContent where
  | table (rows : List CkptRow) : DeltaContent
  | textLines (actions : List Json) : DeltaContent
deriving DecidableEq

/-- The `_delta_log` directory: the listed file names and the content
obtained by reading a listed name. -/
structure DeltaDir where
  listing : List String
  read : String → DeltaContent

/-- A collected log action (delta.py `actions`): either a checkpoint row
appended by the checkpoint branch, or a parsed JSON line appended by the
json branch. -/
inductive DeltaAction where
  | row (r : CkptRow) : DeltaAction
  | jsonAct (j : Json) : DeltaAction
deriving DecidableEq

/-- The sort key `int(x.split('.')[0])` of delta.py:33-34 (and, via
`os.path.basename`, delta.py:88-89): the digits before the first `.` of the
filename, or nothing when they do not form a number (in which case the
Python `sort` raises and the analyzer fails). -/
def parseDeltaVersion (name : String) : Option Nat :=
  natOfDigits? (name.data.takeWhile (fun c => c ≠ '.'))

/-- `files.sort(key=lambda x: int(x.split('.')[0]))`: compute every key
(failing on the first name without one, as Python does before comparing)
and stably sort ascending by it. -/
def sortByDeltaVersion (names : List String) : Except String (List String) := do
  let keyed ← exceptMapList
    (fun n =>
      match parseDeltaVersion n with
      | some v => Except.ok (v, n)
      | none => Except.error ("invalid version number in log filename " ++ n))
    names
  Except.ok ((stableSort (fun a b => a.1 < b.1) keyed).map (fun kv => kv.2))

/-- The checkpoint-branch schema scan (delta.py:44-48): for each row whose
`add` attribute is present and truthy, parse it, and when it carries a
`metaData` key overwrite `schema` with `metaData.get('schema')` — no
first-wins guard, so the last such row wins. -/
def ckptSchemaScan : List CkptRow → Option Json → Option Json
  | [], s => s
  | r :: rs, s =>
    let s2 :=
      match r.add with
      | some a =>
        match a.getKey "metaData" with
        | some md => md.getKey "schema"
        | none => s
      | none => s
    ckptSchemaScan rs s2

/-- The json-branch schema scan (delta.py:55-58): the first action carrying
a `metaData` key sets `schema` to `metaData.get('schema')`; later actions
only run when `schema` is still `None`. -/
def jsonLogScan : List Json → Option Json → Option Json
  | [], s => s
  | a :: rest, s =>
    let s2 :=
      if a.hasKey "metaData" && s.isNone then
        match a.getKey "metaData" with
        | some md => md.getKey "schema"
        | none => none
      else s
    jsonLogScan rest s2

/-- Names in the listing ending in `.checkpoint.parquet` (delta.py:29). -/
def checkpointNames (dir : DeltaDir) : List String :=
  dir.listing.filter (fun f => strEndsWith f ".checkpoint.parquet")

/-- Names in the listing ending in `.json` (delta.py:30). -/
def jsonLogNames (dir : DeltaDir) : List String :=
  dir.listing.filter (fun f => strEndsWith f ".json")

/-- Read the given json log files in order and concatenate their per-line
actions (delta.py:52-56).  A file that is not line-delimited JSON makes
`json.loads` raise, failing the analyzer. -/
def readJsonActions (dir : DeltaDir) (names : List String) :
    Except String (List Json) := do
  let actionLists ← exceptMapList
    (fun n =>
      match dir.read n with
      | .textLines as => Except.ok as
      | .table _ => Except.error ("log file " ++ n ++ " is not line-delimited JSON"))
    names
  Except.ok actionLists.flatten

/-- Result of the collection phase of `analyze_delta_log` (delta.py:36-58):
the `schema` variable and the `actions` list. -/
structure DeltaCollected where
  schema : Option Json
  actions : List DeltaAction
deriving DecidableEq

/-- The collection phase of `analyze_delta_log`: sort both groups, then
either read the latest checkpoint (when any exists) or the last 10 json
logs. -/
def deltaCollect (dir : DeltaDir) : Except String DeltaCollected := do
  let sortedCkpt ← sortByDeltaVersion (checkpointNames dir)
  let sortedJson ← sortByDeltaVersion (jsonLogNames dir)
  match sortedCkpt.getLast? with
  | some latest =>
    match dir.read latest with
    | .table rows =>
      Except.ok ⟨ckptSchemaScan rows none, rows.map DeltaAction.row⟩
    | .textLines _ =>
      Except.error ("checkpoint file " ++ latest ++ " is not a parquet table")
  | none =>
    let acts ← readJsonActions dir (takeLast 10 sortedJson)
    Except.ok ⟨jsonLogScan acts none, acts.map DeltaAction.jsonAct⟩

/-- One row of the schema DataFrame built by the Delta, Iceberg and Hudi
analyzers: `Column` / `Type` / `Partition`, where name and type are the raw
JSON values `field.get('name')` / `field.get('type')` (null when absent). -/
structure JsonSchemaRow where
  column : Json
  type : Json
  partitionFlag : String
deriving DecidableEq

/-- One entry of the version history: `version` / `timestamp` / `operation`
as raw JSON values (null when the source key is absent). -/
structure VersionRow where
  version : Json
  timestamp : Json
  operation : Json
deriving DecidableEq

/-- The schema-field extraction shared by delta.py:125-131 (guarded by a
truthy `schema`), iceberg.py:48-55 and hudi.py:125-131: iterate
`schema['fields']` collecting `name` and `type`.  The `nullable` (delta) /
`required` (iceberg) / `doc` (hudi) extras are stored by the Python code but
never read afterwards and are omitted. -/
def extractJsonFields (sj : Json) : List (Json × Json) :=
  match sj.getKey "fields" with
  | some (.arr fs) =>
    fs.map (fun f => (((f.getKey "name").getD .null), ((f.getKey "type").getD .null)))
  | _ => []

/-- Python truthiness of the `schema` variable, which is either `None` or a
parsed JSON value. -/
def schemaTruthy : Option Json → Bool
  | some j => j.truthy
  | none => false

/-- The partition scan of delta.py:133-138: the first collected action that
is a dict and has a `metaData` key supplies `metaData.get('partitionColumns',
[])`, then `break`.  Checkpoint rows are namedtuples, never dicts, so they
never match.  A `partitionColumns` value that is not a JSON array is treated
as empty (the Python code would apply `len`/`in` to the raw value and, on the
metadata shapes Delta writes, such documents do not occur). -/
def findPartitionCols : List DeltaAction → List Json
  | [] => []
  | .row _ :: rest => findPartitionCols rest
  | .jsonAct j :: rest =>
    if j.isObj && j.hasKey "metaData" then
      match ((j.getKey "metaData").getD .null).getKey "partitionColumns" with
      | some (.arr xs) => xs
      | some _ => []
      | none => []
    else findPartitionCols rest

/-- The version-history extraction of delta.py:148-156: every collected
action that is a dict and has a `commitInfo` key contributes one row, in
encounter order. -/
def deltaVersions (actions : List DeltaAction) : List VersionRow :=
  actions.filterMap (fun a =>
    match a with
    | .row _ => none
    | .jsonAct j =>
      if j.isObj && j.hasKey "commitInfo" then
        let ci := (j.getKey "commitInfo").getD .null
        some ⟨(ci.getKey "version").getD .null,
              (ci.getKey "timestamp").getD .null,
              (ci.getKey "operation").getD .null⟩
      else none)

/-- Result of `analyze_delta_log` (delta.py:162-177). -/
structure DeltaResult where
  schema : List JsonSchemaRow
  format : String
  last_updated : Json
  location : String
  files : Nat
  size : String
  rows : String
  partitionsCount : Nat
  versions : List VersionRow
  partitions : List Json
deriving DecidableEq

/-- The assembly phase of `analyze_delta_log` (delta.py:120-177), a pure
function of the collection result and the requested path. -/
def buildDelta (log_path : String) (c : DeltaCollected) : DeltaResult :=
  let schema_fields :=
    if schemaTruthy c.schema then extractJsonFields ((c.schema).getD .null) else []
  let partition_fields :=
    if schemaTruthy c.schema then findPartitionCols c.actions else []
  let versions := deltaVersions c.actions
  { schema :=
      schema_fields.map (fun f =>
        ⟨f.1, f.2, if partition_fields.contains f.1 then "Yes" else "No"⟩)
    format := "Delta"
    last_updated :=
      match versions.head? with
      | some v => v.timestamp
      | none => .str "Unknown"
    location := pyReplace log_path '/' "_delta_log".data []
    files :=
      (c.actions.filter (fun a =>
        match a with
        | .row _ => false
        | .jsonAct j => j.isObj && j.hasKey "add")).length
    size := "Unknown"
    rows := "Unknown"
    partitionsCount := partition_fields.length
    versions := versions
    partitions := partition_fields }

/-- `analyze_delta_log` (delta.py:9-179): collection followed by assembly. -/
def analyze_delta_log (log_path : String) (dir : DeltaDir) :
    Except String DeltaResult :=
  (deltaCollect dir).map (buildDelta log_path)

/-! ## IcebergAnalyzer (src/utils/iceberg.py)

`analyze_iceberg_metadata` reads one JSON document (local file or S3
object) and normalizes it; with the parsed document as input the whole
analyzer is a total function. -/

/-- Result of `analyze_iceberg_metadata` (iceberg.py:91-108). -/
structure IcebergResult where
  schema : List JsonSchemaRow
  format : String
  format_version : Json
  last_updated : Json
  location : Json
  table_uuid : Json
  files : StatVal
  size : String
  rows : String
  partitionsCount : Nat
  versions : List VersionRow
  partitions : List Json
deriving DecidableEq

/-- The `partition-spec` field names (iceberg.py:57-60). -/
def icebergPartitionFields (metadata : Json) : List Json :=
  match metadata.getKey "partition-spec" with
  | some spec =>
    match spec.getKey "fields" with
    | some (.arr fs) => fs.map (fun f => (f.getKey "name").getD .null)
    | _ => []
  | none => []

/-- `analyze_iceberg_metadata` (iceberg.py:8-110) on the parsed metadata
document.  `total_files` is initialised to 0 and never updated (the
manifest walk is left unimplemented, iceberg.py:83-89), so the `files`
statistic is the integer 0 while `size` and `rows` are the string
`"Unknown"`. -/
def analyze_iceberg_metadata (metadata : Json) : IcebergResult :=
  let schema_fields :=
    match metadata.getKey "current-schema" with
    | some schema => extractJsonFields schema
    | none => []
  let partition_fields := icebergPartitionFields metadata
  let properties := (metadata.getKey "properties").getD (.obj [])
  let versions :=
    match metadata.getKey "snapshots" with
    | some (.arr snaps) =>
      snaps.map (fun s =>
        (⟨(s.getKey "snapshot-id").getD .null,
          (s.getKey "timestamp-ms").getD .null,
          (s.getKey "operation").getD .null⟩ : VersionRow))
    | _ => []
  { schema :=
      schema_fields.map (fun f =>
        ⟨f.1, f.2, if partition_fields.contains f.1 then "Yes" else "No"⟩)
    format := "Iceberg"
    format_version := (metadata.getKey "format-version").getD (.str "Unknown")
    last_updated := (properties.getKey "last-updated-ms").getD (.str "Unknown")
    location := (metadata.getKey "location").getD (.str "Unknown")
    table_uuid := (metadata.getKey "table-uuid").getD (.str "Unknown")
    files := .count 0
    size := "Unknown"
    rows := "Unknown"
    partitionsCount := partition_fields.length
    versions := versions
    partitions := partition_fields }

/-! ## HudiAnalyzer (src/utils/hudi.py) -/

/-- Errors raised inside `analyze_hudi_metadata` before being wrapped at
hudi.py:227-228.  `metadataDirNotFound` and `propertiesNotFound` are the
`NotFound` kind of the spec's error taxonomy (a required file/object is
absent); `malformedPropertyLine` is raised by the 2-tuple unpacking of
`line.split('=', 1)` on a line without `=`; `statTypeError` by `len(...)`
or `+` applied to a commit value of the wrong type. -/
inductive HudiError where
  | metadataDirNotFound : HudiError
  | propertiesNotFound : HudiError
  | malformedPropertyLine (line : String) : HudiError
  | statTypeError (what : String) : HudiError
deriving DecidableEq

/-- The `.hoodie` metadata directory of a Hudi table, as the analyzer
accesses it: existence of the directory, the `hoodie.properties` lines
(none when the file is absent), the parsed `schema` file (none when
absent), the listing of the `commits` directory (none when absent), and the
parsed content of a listed commit file.  The best-effort preview search of
hudi.py:178-212 walks the table's data files; it is abstracted by its
outcome, the first ≤10-row batch found (none when nothing is found or any
step of that secondary search fails, which hudi.py swallows). -/
structure HudiDir where
  dirExists : Bool
  propertiesLines : Option (List String)
  schemaFile : Option Json
  commitsListing : Option (List String)
  readCommit : String → Json
  previewSearch : Option (List (List Json))

/-- One pass of the properties loop (hudi.py:38-43): strip the line, skip
blank and `#` lines, split at the first `=` (raising when there is none),
and strip key and value. -/
def parsePropertyLine (line : String) :
    Except HudiError (Option (String × String)) :=
  let l := pyStrip line
  if l = "" || strStartsWithChar l '#' then Except.ok none
  else if l.data.contains '=' then
    let key := String.mk (l.data.takeWhile (fun c => c ≠ '='))
    let value := String.mk ((l.data.dropWhile (fun c => c ≠ '=')).drop 1)
    Except.ok (some (pyStrip key, pyStrip value))
  else Except.error (.malformedPropertyLine line)

/-- `properties[key.strip()] = value.strip()`: dict insertion, overwriting
in place when the key exists. -/
def dictInsert (m : List (String × String)) (k v : String) :
    List (String × String) :=
  if m.any (fun kv => kv.1 == k) then
    m.map (fun kv => if kv.1 == k then (k, v) else kv)
  else m ++ [(k, v)]

/-- `properties.get(key)`. -/
def dictGet (m : List (String × String)) (k : String) : Option String :=
  (m.find? (fun kv => kv.1 == k)).map (fun kv => kv.2)

/-- Python `len` as used on commit values (hudi.py:174): lists, strings and
dicts have a length, other values raise `TypeError`. -/
def pyLen : Json → Except HudiError Nat
  | .arr xs => .ok xs.length
  | .str s => .ok s.length
  | .obj kvs => .ok kvs.length
  | _ => .error (.statTypeError "object has no len")

/-- Python `int +` as used on `recordsWritten` (hudi.py:176): integers add,
booleans coerce to 0/1, anything else raises `TypeError`. -/
def pyToInt : Json → Except HudiError Int
  | .num n => .ok n
  | .bool b => .ok (if b then 1 else 0)
  | _ => .error (.statTypeError "unsupported operand type for +")

/-- One pass of the statistics loop of hudi.py:172-176: add the length of
`fileAdded` (when present) to `total_files` and `recordsWritten` (when
present) to `total_rows`. -/
def hudiStatStep (acc : Nat × Int) (c : Json) : Except HudiError (Nat × Int) := do
  let tf ←
    if c.hasKey "fileAdded" then do
      let n ← pyLen ((c.getKey "fileAdded").getD .null)
      pure (acc.1 + n)
    else pure acc.1
  let tr ←
    if c.hasKey "recordsWritten" then do
      let n ← pyToInt ((c.getKey "recordsWritten").getD .null)
      pure (acc.2 + n)
    else pure acc.2
  pure (tf, tr)

/-- The statistics loop of hudi.py:172-176 over the examined commits,
accumulating `(total_files, total_rows)` from 0. -/
def hudiStatsLoop (commits : List Json) : Except HudiError (Nat × Int) :=
  exceptFoldList hudiStatStep (0, 0) commits

/-- The commit files examined by the analyzer (hudi.py:56-57 / 104-114):
the listed names ending in `.commit`, sorted lexicographically (Python
`sorted` on strings), last 10, each read and parsed. -/
def examinedCommits (dir : HudiDir) : List Json :=
  match dir.commitsListing with
  | some names =>
    (takeLast 10
      (stableSort (fun a b => a < b)
        (names.filter (fun f => strEndsWith f ".commit")))).map dir.readCommit
  | none => []

/-- Result of `analyze_hudi_metadata` (hudi.py:214-226). -/
structure HudiResult where
  schema : List JsonSchemaRow
  table_type : String
  table_name : String
  base_path : String
  compaction_strategy : String
  archiving_enabled : String
  files : StatVal
  size : String
  rows : String
  partitionsCount : Nat
  versions : List VersionRow
  partitions : List String
  preview_data : Option (List (List Json))
deriving DecidableEq

/-- The properties loop of hudi.py:37-43: parse each line, skipping blanks
and comments, inserting into the dict. -/
def parseProperties (lines : List String) :
    Except HudiError (List (String × String)) :=
  exceptFoldList
    (fun m line =>
      match parsePropertyLine line with
      | .ok (some kv) => .ok (dictInsert m kv.1 kv.2)
      | .ok none => .ok m
      | .error e => .error e)
    [] lines

/-- The Python membership test `field['name'] in partition_fields`, where
the left side is a JSON value and the right a list of strings: only a
string can equal a string. -/
def jsonNameInStrings (name : Json) (l : List String) : Bool :=
  match name with
  | .str s => l.contains s
  | _ => false

/-- The comma-split `hoodie.table.partition.fields` property
(hudi.py:134-137). -/
def hudiPartitionFields (properties : List (String × String)) : List String :=
  match dictGet properties "hoodie.table.partition.fields" with
  | some v => if v ≠ "" then pySplit ',' v else []
  | none => []

/-- The pure assembly part of `analyze_hudi_metadata` (hudi.py:123-226),
a function of the requested path, the metadata directory, the parsed
properties and the accumulated `(total_files, total_rows)`. -/
def buildHudi (path : String) (dir : HudiDir)
    (properties : List (String × String)) (totals : Nat × Int) : HudiResult :=
  let schema : Json :=
    match dir.schemaFile with
    | some j => j
    | none => .obj []
  let commits := examinedCommits dir
  let schema_fields :=
    if schema.truthy && schema.hasKey "fields" then extractJsonFields schema
    else []
  let partition_fields : List String := hudiPartitionFields properties
  { schema :=
      schema_fields.map (fun f =>
        ⟨f.1, f.2, if jsonNameInStrings f.1 partition_fields then "Yes" else "No"⟩)
    table_type := (dictGet properties "hoodie.table.type").getD "Unknown"
    table_name := (dictGet properties "hoodie.table.name").getD "Unknown"
    base_path := path
    compaction_strategy :=
      (dictGet properties "hoodie.compaction.strategy").getD "Unknown"
    archiving_enabled :=
      (dictGet properties "hoodie.archive.enabled").getD "Unknown"
    files := if totals.1 > 0 then .count totals.1 else .str "Unknown"
    size := "Unknown"
    rows := if totals.2 > 0 then commaFormatInt totals.2 else "Unknown"
    partitionsCount := partition_fields.length
    versions :=
      commits.map (fun c =>
        ⟨(c.getKey "commitTime").getD .null,
         (c.getKey "commitTime").getD .null,
         (c.getKey "operationType").getD (.str "Unknown")⟩)
    partitions := partition_fields
    preview_data :=
      match dir.previewSearch with
      | some rows => if rows.isEmpty then none else some rows
      | none => none }

/-- `analyze_hudi_metadata` (hudi.py:9-228): mandatory-file checks, the
properties parse, the statistics loop over the examined commits, then the
pure assembly. -/
def analyze_hudi_metadata (path : String) (dir : HudiDir) :
    Except HudiError HudiResult :=
  match dir.dirExists with
  | false => .error .metadataDirNotFound
  | true =>
    match dir.propertiesLines with
    | none => .error HudiError.propertiesNotFound
    | some propLines =>
      match parseProperties propLines with
      | .error e => .error e
      | .ok properties =>
        match hudiStatsLoop (examinedCommits dir) with
        | .error e => .error e
        | .ok totals => .ok (buildHudi path dir properties totals)

/-- The keys of the dict returned by `analyze_local_parquet`
(parquet.py:44-59). -/
def local_parquet_result_keys : List String :=
  ["schema", "properties", "statistics", "preview_data"]

/-- The keys of the dict returned by `analyze_s3_parquet`
(parquet.py:145-161). -/
def s3_parquet_result_keys : List String :=
  ["schema", "properties", "statistics", "preview_data", "partitions"]

/-- The keys of the dict returned by `analyze_delta_log` (delta.py:162-177). -/
def delta_result_keys : List String :=
  ["schema", "properties", "statistics", "versions", "partitions"]

/-- The keys of the dict returned by `analyze_iceberg_metadata`
(iceberg.py:91-108). -/
def iceberg_result_keys : List String :=
  ["schema", "properties", "statistics", "versions", "partitions"]

/-- The keys of the dict returned by `analyze_hudi_metadata`
(hudi.py:214-226). -/
def hudi_result_keys : List String :=
  ["schema", "properties", "statistics", "versions", "partitions", "preview_data"]

/-! ## Helper lemmas -/

theorem mem_insertSorted {lt : α → α → Bool} {a x : α} {l : List α} :
    a ∈ insertSorted lt x l ↔ a = x ∨ a ∈ l := by
  induction l with
  | nil => simp [insertSorted]
  | cons b bs ih =>
    simp only [insertSorted]
    split
    · simp only [List.mem_cons, ih]
      tauto
    · simp only [List.mem_cons]

theorem mem_stableSort {lt : α → α → Bool} {a : α} {l : List α} :
    a ∈ stableSort lt l ↔ a ∈ l := by
  induction l with
  | nil => simp [stableSort]
  | cons b bs ih => simp [stableSort, mem_insertSorted, ih]

theorem length_insertSorted {lt : α → α → Bool} (x : α) (l : List α) :
    (insertSorted lt x l).length = l.length + 1 := by
  induction l with
  | nil => rfl
  | cons b bs ih =>
    simp only [insertSorted]
    split
    · simp [ih]
    · simp

theorem length_stableSort {lt : α → α → Bool} (l : List α) :
    (stableSort lt l).length = l.length := by
  induction l with
  | nil => rfl
  | cons b bs ih => simp [stableSort, length_insertSorted, ih]

theorem exceptMapList_ok_forall {f : α → Except ε β} {l : List α}
    {ys : List β} (h : exceptMapList f l = .ok ys) :
    ∀ y ∈ ys, ∃ x ∈ l, f x = .ok y := by
  induction l generalizing ys with
  | nil =>
    simp only [exceptMapList] at h
    cases h
    simp
  | cons x xs ih =>
    simp only [exceptMapList, bind, Except.bind] at h
    cases hx : f x with
    | error e => rw [hx] at h; cases h
    | ok y =>
      rw [hx] at h
      cases hrest : exceptMapList f xs with
      | error e => rw [hrest] at h; cases h
      | ok ys2 =>
        rw [hrest] at h
        cases h
        intro z hz
        rcases List.mem_cons.mp hz with hz | hz
        · exact ⟨x, List.mem_cons_self x xs, hz ▸ hx⟩
        · obtain ⟨w, hw, hfw⟩ := ih hrest z hz
          exact ⟨w, List.mem_cons_of_mem x hw, hfw⟩

theorem exceptMapList_ok_length {f : α → Except ε β} {l : List α}
    {ys : List β} (h : exceptMapList f l = .ok ys) :
    ys.length = l.length := by
  induction l generalizing ys with
  | nil =>
    simp only [exceptMapList] at h
    cases h
    rfl
  | cons x xs ih =>
    simp only [exceptMapList, bind, Except.bind] at h
    cases hx : f x with
    | error e => rw [hx] at h; cases h
    | ok y =>
      rw [hx] at h
      cases hrest : exceptMapList f xs with
      | error e => rw [hrest] at h; cases h
      | ok ys2 =>
        rw [hrest] at h
        cases h
        simp [ih hrest]

theorem exceptMapList_congr {f g : α → Except ε β} {l : List α}
    (h : ∀ x ∈ l, f x = g x) : exceptMapList f l = exceptMapList g l := by
  induction l with
  | nil => rfl
  | cons x xs ih =>
    simp only [exceptMapList]
    rw [h x (List.mem_cons_self x xs), ih (fun y hy => h y (List.mem_cons_of_mem x hy))]

theorem sortByDeltaVersion_ok_mem {ns l : List String}
    (h : sortByDeltaVersion ns = .ok l) : ∀ x ∈ l, x ∈ ns := by
  simp only [sortByDeltaVersion, bind, Except.bind] at h
  cases hm : exceptMapList
      (fun n =>
        match parseDeltaVersion n with
        | some v => Except.ok (v, n)
        | none => Except.error ("invalid version number in log filename " ++ n))
      ns with
  | error e => rw [hm] at h; cases h
  | ok keyed =>
    rw [hm] at h
    cases h
    intro x hx
    simp only [List.mem_map] at hx
    obtain ⟨kv, hkv, hsnd⟩ := hx
    have hkv2 := mem_stableSort.mp hkv
    obtain ⟨n, hn, hfn⟩ := exceptMapList_ok_forall hm kv hkv2
    cases hp : parseDeltaVersion n with
    | some v => rw [hp] at hfn; cases hfn; exact hsnd ▸ hn
    | none => rw [hp] at hfn; cases hfn

theorem sortByDeltaVersion_ok_length {ns l : List String}
    (h : sortByDeltaVersion ns = .ok l) : l.length = ns.length := by
  simp only [sortByDeltaVersion, bind, Except.bind] at h
  cases hm : exceptMapList
      (fun n =>
        match parseDeltaVersion n with
        | some v => Except.ok (v, n)
        | none => Except.error ("invalid version number in log filename " ++ n))
      ns with
  | error e => rw [hm] at h; cases h
  | ok keyed =>
    rw [hm] at h
    cases h
    simp [length_stableSort, exceptMapList_ok_length hm]

theorem sortByDeltaVersion_ok_ne_nil {ns l : List String}
    (h : sortByDeltaVersion ns = .ok l) (hne : ns ≠ []) : l ≠ [] := by
  intro hl
  apply hne
  have := sortByDeltaVersion_ok_length h
  rw [hl] at this
  exact List.eq_nil_of_length_eq_zero this.symm

theorem checkpointNames_congr {d1 d2 : DeltaDir}
    (h : d1.listing = d2.listing) : checkpointNames d1 = checkpointNames d2 := by
  simp [checkpointNames, h]

theorem jsonLogNames_congr {d1 d2 : DeltaDir}
    (h : d1.listing = d2.listing) : jsonLogNames d1 = jsonLogNames d2 := by
  simp [jsonLogNames, h]

theorem readJsonActions_congr {d1 d2 : DeltaDir} {names : List String}
    (h : ∀ n ∈ names, d1.read n = d2.read n) :
    readJsonActions d1 names = readJsonActions d2 names := by
  simp only [readJsonActions]
  rw [exceptMapList_congr (fun n hn => by rw [h n hn])]

theorem findPartitionCols_rows (rows : List CkptRow) :
    findPartitionCols (rows.map DeltaAction.row) = [] := by
  induction rows with
  | nil => rfl
  | cons r rs ih => simpa [findPartitionCols] using ih

/-- With at least one checkpoint listed, the whole collection phase depends
only on the listing and on the contents of the checkpoint files: json log
contents are never read. -/
theorem deltaCollect_ckpt_congr {d1 d2 : DeltaDir}
    (hl : d1.listing = d2.listing)
    (hr : ∀ n ∈ checkpointNames d1, d1.read n = d2.read n)
    (hne : checkpointNames d1 ≠ []) :
    deltaCollect d1 = deltaCollect d2 := by
  unfold deltaCollect
  rw [← checkpointNames_congr hl, ← jsonLogNames_congr hl]
  simp only [bind, Except.bind]
  cases hs : sortByDeltaVersion (checkpointNames d1) with
  | error e => rfl
  | ok sorted =>
    cases hj : sortByDeltaVersion (jsonLogNames d1) with
    | error e => rfl
    | ok sj =>
      dsimp only
      have hsne : sorted ≠ [] := sortByDeltaVersion_ok_ne_nil hs hne
      obtain ⟨latest, hlast⟩ : ∃ a, sorted.getLast? = some a := by
        cases hsl : sorted.getLast? with
        | none => exact absurd (List.getLast?_eq_none_iff.mp hsl) hsne
        | some a => exact ⟨a, rfl⟩
      rw [hlast]
      dsimp only
      have hmem : latest ∈ checkpointNames d1 :=
        sortByDeltaVersion_ok_mem hs latest (List.mem_of_getLast?_eq_some hlast)
      rw [hr latest hmem]

/-- With no checkpoint listed, the collection phase depends only on the
listing and on the contents of the last 10 sorted json log files: earlier
json files are never read. -/
theorem deltaCollect_json_congr {d1 d2 : DeltaDir} {sorted : List String}
    (hl : d1.listing = d2.listing)
    (hck : checkpointNames d1 = [])
    (hs : sortByDeltaVersion (jsonLogNames d1) = .ok sorted)
    (hr : ∀ n ∈ takeLast 10 sorted, d1.read n = d2.read n) :
    deltaCollect d1 = deltaCollect d2 := by
  unfold deltaCollect
  rw [← checkpointNames_congr hl, ← jsonLogNames_congr hl, hck]
  simp only [bind, Except.bind]
  rw [hs]
  have h0 : sortByDeltaVersion ([] : List String) = .ok [] := rfl
  rw [h0]
  dsimp only [List.getLast?]
  rw [readJsonActions_congr hr]

theorem mem_dedupAppend {acc : List String} {col c : String} :
    c ∈ (if acc.contains col then acc else acc ++ [col]) ↔ c ∈ acc ∨ c = col := by
  split
  · next h =>
    constructor
    · exact fun hm => Or.inl hm
    · rintro (hm | rfl)
      · exact hm
      · exact List.elem_iff.mp h
  · simp

theorem mem_inferInnerFold (parts : List String) (acc : List String) (c : String) :
    c ∈ parts.foldl
        (fun acc part =>
          if part.data.contains '=' then
            let col_name := partColName part
            if acc.contains col_name then acc else acc ++ [col_name]
          else acc)
        acc ↔
      c ∈ acc ∨ ∃ part ∈ parts, part.data.contains '=' = true ∧ c = partColName part := by
  induction parts generalizing acc with
  | nil => simp
  | cons p ps ih =>
    simp only [List.foldl_cons]
    rw [ih]
    constructor
    · rintro (hm | ⟨part, hp, hcontains, hc⟩)
      · by_cases hpc : p.data.contains '=' = true
        · rw [if_pos hpc] at hm
          rcases mem_dedupAppend.mp hm with hm | hm
          · exact Or.inl hm
          · exact Or.inr ⟨p, List.mem_cons_self p ps, hpc, hm⟩
        · rw [if_neg hpc] at hm
          exact Or.inl hm
      · exact Or.inr ⟨part, List.mem_cons_of_mem p hp, hcontains, hc⟩
    · rintro (hm | ⟨part, hp, hcontains, hc⟩)
      · left
        split
        · exact mem_dedupAppend.mpr (Or.inl hm)
        · exact hm
      · rcases List.mem_cons.mp hp with rfl | hp
        · left
          rw [if_pos hcontains]
          exact mem_dedupAppend.mpr (Or.inr hc)
        · exact Or.inr ⟨part, hp, hcontains, hc⟩

theorem mem_infer_partitions (objs : List S3Object) (c : String) :
    c ∈ infer_partitions_from_paths objs ↔
      ∃ o ∈ objs, ∃ part ∈ pySplit '/' o.key,
        part.data.contains '=' = true ∧ c = partColName part := by
  unfold infer_partitions_from_paths
  simp only
  have main : ∀ (keys : List String) (acc : List String),
      c ∈ keys.foldl
          (fun acc path =>
            (pySplit '/' path).foldl
              (fun acc part =>
                if part.data.contains '=' then
                  let col_name := partColName part
                  if acc.contains col_name then acc else acc ++ [col_name]
                else acc)
              acc)
          acc ↔
        c ∈ acc ∨ ∃ key ∈ keys, ∃ part ∈ pySplit '/' key,
          part.data.contains '=' = true ∧ c = partColName part := by
    intro keys
    induction keys with
    | nil => simp
    | cons k ks ih =>
      intro acc
      simp only [List.foldl_cons]
      rw [ih, mem_inferInnerFold]
      constructor
      · rintro ((hm | ⟨part, hp, hc1, hc2⟩) | ⟨key, hk, part, hp, hc1, hc2⟩)
        · exact Or.inl hm
        · exact Or.inr ⟨k, List.mem_cons_self k ks, part, hp, hc1, hc2⟩
        · exact Or.inr ⟨key, List.mem_cons_of_mem k hk, part, hp, hc1, hc2⟩
      · rintro (hm | ⟨key, hk, part, hp, hc1, hc2⟩)
        · exact Or.inl (Or.inl hm)
        · rcases List.mem_cons.mp hk with rfl | hk
          · exact Or.inl (Or.inr ⟨part, hp, hc1, hc2⟩)
          · exact Or.inr ⟨key, hk, part, hp, hc1, hc2⟩
  rw [main]
  simp only [List.not_mem_nil, false_or, List.mem_map]
  constructor
  · rintro ⟨key, ⟨o, ho, rfl⟩, part, hp, hc1, hc2⟩
    exact ⟨o, ho, part, hp, hc1, hc2⟩
  · rintro ⟨o, ho, part, hp, hc1, hc2⟩
    exact ⟨o.key, ⟨o, ho, rfl⟩, part, hp, hc1, hc2⟩

/-- The cumulative effect of the flag-update loop on a single row. -/
def updAll (cols : List String) (r : ParquetSchemaRow) : ParquetSchemaRow :=
  if cols.contains r.column then { r with partitionFlag := "Yes" } else r

theorem updAll_updOne (c : String) (cs : List String) (r : ParquetSchemaRow) :
    updAll cs (updOne c r) = updAll (c :: cs) r := by
  by_cases hc : r.column = c
  · have hb : (r.column == c) = true := beq_iff_eq.mpr hc
    have hOne : updOne c r = { r with partitionFlag := "Yes" } := by
      unfold updOne
      rw [if_pos hb]
    rw [hOne]
    unfold updAll
    have hcol : ({ r with partitionFlag := "Yes" } :
        ParquetSchemaRow).column = r.column := rfl
    rw [hcol]
    rw [show ((c :: cs).contains r.column) = true from by
      rw [List.contains_cons, hb]
      rfl]
    rw [if_pos rfl]
    split <;> rfl
  · have hb : (r.column == c) = false := by
      cases hbc : (r.column == c) with
      | true => exact absurd (beq_iff_eq.mp hbc) hc
      | false => rfl
    have hOne : updOne c r = r := by
      unfold updOne
      rw [if_neg (by simp [hb])]
    rw [hOne]
    unfold updAll
    rw [show ((c :: cs).contains r.column) = cs.contains r.column from by
      rw [List.contains_cons, hb, Bool.false_or]]

theorem updateStep_eq (rows : List ParquetSchemaRow) (c : String) :
    (if (rows.map (fun r => r.column)).contains c then rows.map (updOne c)
     else rows) = rows.map (updOne c) := by
  split
  · rfl
  · next hnc =>
    symm
    rw [show rows.map (updOne c) = rows.map (fun r => r) from
      List.map_congr_left (fun r hr => by
        unfold updOne
        have : (r.column == c) = false := by
          by_contra habs
          apply hnc
          have hcc : r.column = c := by
            cases hbc : (r.column == c) with
            | true => exact beq_iff_eq.mp hbc
            | false => exact absurd hbc habs
          exact List.elem_iff.mpr
            (hcc ▸ List.mem_map_of_mem (fun r => r.column) hr)
        rw [if_neg (by simp [this])])]
    exact List.map_id' rows

theorem except_map_ok {f : α → β} {e : Except ε α} {b : β} :
    e.map f = .ok b ↔ ∃ a, e = .ok a ∧ f a = b := by
  cases e with
  | error err => simp [Except.map]
  | ok a => simp [Except.map]

/-- The sum of the `fileAdded` lengths over the commits carrying that key,
written independently of the accumulation loop. -/
def hudiFilesSum (cs : List Json) : Except HudiError Nat :=
  (exceptMapList (fun c => pyLen ((c.getKey "fileAdded").getD .null))
    (cs.filter (fun c => c.hasKey "fileAdded"))).map List.sum

/-- The sum of the `recordsWritten` values over the commits carrying that
key, written independently of the accumulation loop. -/
def hudiRowsSum (cs : List Json) : Except HudiError Int :=
  (exceptMapList (fun c => pyToInt ((c.getKey "recordsWritten").getD .null))
    (cs.filter (fun c => c.hasKey "recordsWritten"))).map List.sum

theorem hudiFilesSum_cons_true {c : Json} {cs : List Json} {dn : Nat}
    {F2 : Nat} (hfa : c.hasKey "fileAdded" = true)
    (hlen : pyLen ((c.getKey "fileAdded").getD .null) = .ok dn)
    (hF2 : hudiFilesSum cs = .ok F2) :
    hudiFilesSum (c :: cs) = .ok (dn + F2) := by
  obtain ⟨ls, hls, hsum⟩ := except_map_ok.mp hF2
  unfold hudiFilesSum
  rw [show (c :: cs).filter (fun c => c.hasKey "fileAdded") =
      c :: cs.filter (fun c => c.hasKey "fileAdded") from by
    simp [List.filter_cons, hfa]]
  simp only [exceptMapList, bind, Except.bind]
  rw [hlen, hls]
  simp [Except.map, hsum]

theorem hudiFilesSum_cons_false {c : Json} {cs : List Json}
    (hfa : c.hasKey "fileAdded" = false) :
    hudiFilesSum (c :: cs) = hudiFilesSum cs := by
  simp [hudiFilesSum, List.filter_cons, hfa]

theorem hudiRowsSum_cons_true {c : Json} {cs : List Json} {dr : Int}
    {R2 : Int} (hrw : c.hasKey "recordsWritten" = true)
    (hint : pyToInt ((c.getKey "recordsWritten").getD .null) = .ok dr)
    (hR2 : hudiRowsSum cs = .ok R2) :
    hudiRowsSum (c :: cs) = .ok (dr + R2) := by
  obtain ⟨ls, hls, hsum⟩ := except_map_ok.mp hR2
  unfold hudiRowsSum
  rw [show (c :: cs).filter (fun c => c.hasKey "recordsWritten") =
      c :: cs.filter (fun c => c.hasKey "recordsWritten") from by
    simp [List.filter_cons, hrw]]
  simp only [exceptMapList, bind, Except.bind]
  rw [hint, hls]
  simp [Except.map, hsum]

theorem hudiRowsSum_cons_false {c : Json} {cs : List Json}
    (hrw : c.hasKey "recordsWritten" = false) :
    hudiRowsSum (c :: cs) = hudiRowsSum cs := by
  simp [hudiRowsSum, List.filter_cons, hrw]

theorem hudiStatsFold_sums :
    ∀ (cs : List Json) (acc t : Nat × Int),
      exceptFoldList hudiStatStep acc cs = .ok t →
      ∃ F R, hudiFilesSum cs = .ok F ∧ hudiRowsSum cs = .ok R ∧
        t = (acc.1 + F, acc.2 + R) := by
  intro cs
  induction cs with
  | nil =>
    intro acc t h
    simp only [exceptFoldList] at h
    cases h
    exact ⟨0, 0, rfl, rfl, by simp⟩
  | cons c cs ih =>
    intro acc t h
    simp only [exceptFoldList] at h
    cases hfa : c.hasKey "fileAdded" with
    | true =>
      cases hlen : pyLen ((c.getKey "fileAdded").getD .null) with
      | error e =>
        simp [hudiStatStep, bind, Except.bind, pure, Except.pure, hfa, hlen] at h
      | ok dn =>
        cases hrw : c.hasKey "recordsWritten" with
        | true =>
          cases hint : pyToInt ((c.getKey "recordsWritten").getD .null) with
          | error e =>
            simp [hudiStatStep, bind, Except.bind, pure, Except.pure,
              hfa, hrw, hlen, hint] at h
          | ok dr =>
            have hstep : hudiStatStep acc c = .ok (acc.1 + dn, acc.2 + dr) := by
              simp [hudiStatStep, bind, Except.bind, pure, Except.pure,
                hfa, hrw, hlen, hint]
            rw [hstep] at h
            simp only at h
            obtain ⟨F2, R2, hF2, hR2, ht⟩ := ih (acc.1 + dn, acc.2 + dr) t h
            refine ⟨dn + F2, dr + R2,
              hudiFilesSum_cons_true hfa hlen hF2,
              hudiRowsSum_cons_true hrw hint hR2, ?_⟩
            rw [ht]
            simp [Prod.mk.injEq, Nat.add_assoc, Int.add_assoc]
        | false =>
          have hstep : hudiStatStep acc c = .ok (acc.1 + dn, acc.2) := by
            simp [hudiStatStep, bind, Except.bind, pure, Except.pure,
              hfa, hrw, hlen]
          rw [hstep] at h
          simp only at h
          obtain ⟨F2, R2, hF2, hR2, ht⟩ := ih (acc.1 + dn, acc.2) t h
          refine ⟨dn + F2, R2,
            hudiFilesSum_cons_true hfa hlen hF2,
            (hudiRowsSum_cons_false hrw).trans hR2, ?_⟩
          rw [ht]
          simp [Prod.mk.injEq, Nat.add_assoc, Int.add_assoc]
    | false =>
      cases hrw : c.hasKey "recordsWritten" with
      | true =>
        cases hint : pyToInt ((c.getKey "recordsWritten").getD .null) with
        | error e =>
          simp [hudiStatStep, bind, Except.bind, pure, Except.pure,
            hfa, hrw, hint] at h
        | ok dr =>
          have hstep : hudiStatStep acc c = .ok (acc.1, acc.2 + dr) := by
            simp [hudiStatStep, bind, Except.bind, pure, Except.pure,
              hfa, hrw, hint]
          rw [hstep] at h
          simp only at h
          obtain ⟨F2, R2, hF2, hR2, ht⟩ := ih (acc.1, acc.2 + dr) t h
          refine ⟨F2, dr + R2,
            (hudiFilesSum_cons_false hfa).trans hF2,
            hudiRowsSum_cons_true hrw hint hR2, ?_⟩
          rw [ht]
          simp [Prod.mk.injEq, Nat.add_assoc, Int.add_assoc]
      | false =>
        have hstep : hudiStatStep acc c = .ok (acc.1, acc.2) := by
          simp [hudiStatStep, bind, Except.bind, pure, Except.pure, hfa, hrw]
        rw [hstep] at h
        simp only at h
        obtain ⟨F2, R2, hF2, hR2, ht⟩ := ih (acc.1, acc.2) t h
        refine ⟨F2, R2,
          (hudiFilesSum_cons_false hfa).trans hF2,
          (hudiRowsSum_cons_false hrw).trans hR2, ?_⟩
        rw [ht]

theorem hudiStatsLoop_sums {cs : List Json} {t : Nat × Int}
    (h : hudiStatsLoop cs = .ok t) :
    hudiFilesSum cs = .ok t.1 ∧ hudiRowsSum cs = .ok t.2 := by
  obtain ⟨F, R, hF, hR, ht⟩ := hudiStatsFold_sums cs (0, 0) t h
  subst ht
  simpa using ⟨hF, hR⟩

/-- The `commitInfo` payloads of the collected actions that are dicts
carrying that key, in encounter order. -/
def collectedCommitInfos (actions : List DeltaAction) : List Json :=
  actions.filterMap (fun a =>
    match a with
    | .row _ => none
    | .jsonAct j =>
      if j.isObj && j.hasKey "commitInfo" then
        some ((j.getKey "commitInfo").getD .null)
      else none)

/-- The `VersionInfo` row built from one `commitInfo` block
(delta.py:152-156). -/
def versionRowOfCommitInfo (ci : Json) : VersionRow :=
  ⟨(ci.getKey "version").getD .null,
   (ci.getKey "timestamp").getD .null,
   (ci.getKey "operation").getD .null⟩

theorem deltaVersions_eq (actions : List DeltaAction) :
    deltaVersions actions =
      (collectedCommitInfos actions).map versionRowOfCommitInfo := by
  induction actions with
  | nil => rfl
  | cons a rest ih =>
    cases a with
    | row r =>
      simp only [deltaVersions, collectedCommitInfos, List.filterMap_cons] at *
      exact ih
    | jsonAct j =>
      by_cases hj : (j.isObj && j.hasKey "commitInfo") = true
      · simp only [deltaVersions, collectedCommitInfos, List.filterMap_cons,
          hj, if_true] at *
        simp only [List.map_cons]
        rw [show (⟨(((j.getKey "commitInfo").getD .null).getKey "version").getD .null,
            (((j.getKey "commitInfo").getD .null).getKey "timestamp").getD .null,
            (((j.getKey "commitInfo").getD .null).getKey "operation").getD .null⟩ :
              VersionRow) =
            versionRowOfCommitInfo ((j.getKey "commitInfo").getD .null) from rfl]
        rw [ih]
      · simp only [deltaVersions, collectedCommitInfos, List.filterMap_cons,
          hj, if_false] at *
        exact ih

theorem updatePartitionFlags_eq (rows : List ParquetSchemaRow)
    (cols : List String) :
    updatePartitionFlags rows cols = rows.map (updAll cols) := by
  induction cols generalizing rows with
  | nil =>
    show rows = rows.map (updAll [])
    symm
    rw [show rows.map (updAll []) = rows.map (fun r => r) from
      List.map_congr_left (fun r _ => by unfold updAll; rfl)]
    exact List.map_id' rows
  | cons c cs ih =>
    show List.foldl _ rows (c :: cs) = _
    rw [List.foldl_cons]
    have h1 : (if (rows.map (fun r => r.column)).contains c then
        rows.map (updOne c) else rows) = rows.map (updOne c) :=
      updateStep_eq rows c
    rw [h1]
    have h2 : List.foldl
        (fun rs col =>
          if (rs.map (fun r => r.column)).contains col then rs.map (updOne col)
          else rs)
        (rows.map (updOne c)) cs = updatePartitionFlags (rows.map (updOne c)) cs := rfl
    rw [h2, ih, List.map_map]
    exact List.map_congr_left (fun r _ => updAll_updOne c cs r)

/-! ## Claims -/

/-- The minimal Iceberg metadata document of the spec's round-trip test:
a one-field `current-schema` and an empty `partition-spec`. -/
def icebergMinimalDoc : Json :=
  .obj [("current-schema",
          .obj [("fields", .arr [.obj [("name", .str "id"), ("type", .str "long")]])]),
        ("partition-spec", .obj [("fields", .arr [])])]

/-- C7: for the Iceberg analyzer, missing top-level keys default rather than
fail: a document without a `current-schema` key yields a zero-column schema
(and, on the empty document, `format-version` defaults to `"Unknown"` and
versions/partitions default to empty), and the minimal round-trip document
yields exactly the row `Column="id", Type="long", Partition="No"` with an
empty partitions set. -/
theorem C7_iceberg_defaults :
    (∀ m : Json, m.hasKey "current-schema" = false →
      (analyze_iceberg_metadata m).schema = [])
    ∧ (analyze_iceberg_metadata (.obj [])).format_version = .str "Unknown"
    ∧ (analyze_iceberg_metadata (.obj [])).versions = []
    ∧ (analyze_iceberg_metadata (.obj [])).partitions = []
    ∧ (analyze_iceberg_metadata icebergMinimalDoc).schema =
        [⟨.str "id", .str "long", "No"⟩]
    ∧ (analyze_iceberg_metadata icebergMinimalDoc).partitions = [] := by
  refine ⟨?_, rfl, rfl, rfl, rfl, rfl⟩
  intro m hm
  unfold analyze_iceberg_metadata
  cases hk : m.getKey "current-schema" with
  | none => simp
  | some s =>
    exfalso
    unfold Json.hasKey at hm
    rw [hk] at hm
    cases hm

/-- C7 witness: the general part of `C7_iceberg_defaults` applied to the
empty object document. -/
theorem C7_iceberg_defaults_witness :
    (Json.obj []).hasKey "current-schema" = false
    ∧ (analyze_iceberg_metadata (.obj [])).schema = [] :=
  ⟨rfl, C7_iceberg_defaults.1 (.obj []) rfl⟩

/-- C8 counterexample: the claim says the Iceberg statistics report the file
count as the string `"Unknown"`, but on the minimal document (and every
other) the analyzer reports the integer 0 (iceberg.py:84 initialises
`total_files = 0` and iceberg.py:101 returns it unchanged). -/
theorem C8_counterexample :
    (analyze_iceberg_metadata icebergMinimalDoc).files = StatVal.count 0
    ∧ StatVal.count 0 ≠ StatVal.str "Unknown" :=
  ⟨rfl, by decide⟩

/-- C8 amended: for every metadata document, the Iceberg statistics report
the byte size and the row count as the string `"Unknown"` and the file
count as the integer 0 (the analyzer never walks manifest lists or
manifests). -/
theorem C8_iceberg_stats (m : Json) :
    (analyze_iceberg_metadata m).files = StatVal.count 0
    ∧ (analyze_iceberg_metadata m).size = "Unknown"
    ∧ (analyze_iceberg_metadata m).rows = "Unknown" := by
  unfold analyze_iceberg_metadata
  exact ⟨rfl, rfl, rfl⟩

/-- C9 counterexample: the claim says every analyzer returns the full
`MetadataResult` shape with `versions` and `partitions`, but the dict
returned by `analyze_local_parquet` has neither key and the one returned by
`analyze_s3_parquet` has no `versions` key. -/
theorem C9_counterexample :
    "versions" ∉ local_parquet_result_keys
    ∧ "partitions" ∉ local_parquet_result_keys
    ∧ "versions" ∉ s3_parquet_result_keys := by
  decide

/-- C9 amended: the Delta, Iceberg and Hudi analyzers return the full
common shape including `versions` and `partitions`; the Parquet dataset
analyzer returns `partitions` but no `versions`; the single-file Parquet
analyzer returns neither. -/
theorem C9_result_shapes :
    ("versions" ∈ delta_result_keys ∧ "partitions" ∈ delta_result_keys)
    ∧ ("versions" ∈ iceberg_result_keys ∧ "partitions" ∈ iceberg_result_keys)
    ∧ ("versions" ∈ hudi_result_keys ∧ "partitions" ∈ hudi_result_keys)
    ∧ ("partitions" ∈ s3_parquet_result_keys ∧
        "versions" ∉ s3_parquet_result_keys)
    ∧ ("versions" ∉ local_parquet_result_keys ∧
        "partitions" ∉ local_parquet_result_keys) := by
  decide

/-- The spec's partition-inference example objects. -/
def c4Objs : List S3Object :=
  [⟨"t/y=2023/m=01/f1.parquet", 1⟩, ⟨"t/y=2023/m=02/f2.parquet", 2⟩]

/-- Parquet content used by concrete dataset examples. -/
def c4Content : ParquetContent :=
  ⟨[⟨"id", "int64"⟩, ⟨"y", "string"⟩], some "writer", 2, [[.num 1, .str "2023"]]⟩

/-- A listing whose keys carry no `=` segment. -/
def c4PlainListing : List S3ParquetFile :=
  [⟨"t/part-0001.parquet", 7, c4Content⟩]

/-- C4: the Parquet dataset analyzer's inferred partition set is the union,
over the listed keys ending in `.parquet`, of the prefixes before the first
`=` of each `/`-separated segment containing an `=`; on the spec's example
keys the set is exactly `y` and `m`, and keys without `=` segments give an
empty set with no error. -/
theorem C4_partition_inference :
    (∀ (p : String) (listing : List S3ParquetFile) (r : S3ParquetResult),
      analyze_s3_parquet p listing = .ok r →
      ∀ c : String, c ∈ r.partitions ↔
        ∃ f ∈ listing, strEndsWith f.key ".parquet" = true ∧
          ∃ part ∈ pySplit '/' f.key, part.data.contains '=' = true ∧
            c = partColName part)
    ∧ (∀ c : String,
        c ∈ infer_partitions_from_paths c4Objs ↔ (c = "y" ∨ c = "m"))
    ∧ (analyze_s3_parquet "s3://b/t" c4PlainListing).map
        (fun r => r.partitions) = .ok [] := by
  refine ⟨?_, ?_, by rfl⟩
  · intro p listing r h c
    unfold analyze_s3_parquet at h
    cases hpf : listing.filter (fun f => strEndsWith f.key ".parquet") with
    | nil =>
      rw [hpf] at h
      cases h
    | cons first rest =>
      rw [hpf] at h
      dsimp only at h
      cases h
      dsimp only
      rw [mem_infer_partitions]
      constructor
      · rintro ⟨o, ho, part, hp, h1, h2⟩
        rw [← hpf] at ho
        obtain ⟨f, hf, rfl⟩ := List.mem_map.mp ho
        obtain ⟨hfl, hfp⟩ := List.mem_filter.mp hf
        exact ⟨f, hfl, hfp, part, hp, h1, h2⟩
      · rintro ⟨f, hfl, hfp, part, hp, h1, h2⟩
        refine ⟨⟨f.key, f.size⟩, ?_, part, hp, h1, h2⟩
        rw [← hpf]
        exact List.mem_map.mpr ⟨f, List.mem_filter.mpr ⟨hfl, hfp⟩, rfl⟩
  · intro c
    show c ∈ ["y", "m"] ↔ (c = "y" ∨ c = "m")
    simp

/-- A concrete Hive-partitioned dataset listing. -/
def c4S3Listing : List S3ParquetFile :=
  [⟨"t/y=2023/f1.parquet", 5, c4Content⟩]

/-- The analyzer's result on `c4S3Listing`. -/
def c4S3Result : S3ParquetResult :=
  { schema := [⟨"id", "int64", "No"⟩, ⟨"y", "string", "Yes"⟩]
    created_by := "writer"
    location := "s3://b/t"
    num_columns := 2
    files := 1
    sizeBytes := 5
    rows := "Unknown"
    partitionsCount := 1
    preview_data := [[.num 1, .str "2023"]]
    partitions := ["y"] }

/-- C4 witness: the general part of `C4_partition_inference` applied to a
concrete dataset listing with two Hive-partitioned keys: `y` is inferred. -/
theorem C4_partition_inference_witness :
    ("y" ∈ c4S3Result.partitions ↔
      ∃ f ∈ c4S3Listing, strEndsWith f.key ".parquet" = true ∧
        ∃ part ∈ pySplit '/' f.key, part.data.contains '=' = true ∧
          "y" = partColName part) :=
  C4_partition_inference.1 "s3://b/t" c4S3Listing c4S3Result (by rfl) "y"

theorem buildHudi_schema_nil {p : String} {dir : HudiDir}
    {props : List (String × String)} {totals : Nat × Int}
    (hs : dir.schemaFile = none) :
    (buildHudi p dir props totals).schema = [] := by
  unfold buildHudi
  rw [hs]
  rfl

/-- A `.hoodie` directory with the mandatory properties file but no schema
file. -/
def c5HudiDir : HudiDir :=
  ⟨true, some ["hoodie.table.name=t"], none, none, (fun _ => .null), none⟩

/-- C5: the Hudi analyzer fails with the NotFound-kind error
`propertiesNotFound` when `.hoodie/hoodie.properties` is absent, and an
absent `.hoodie/schema` is not an error: any successful run without a
schema file has an empty schema, and the concrete directory `c5HudiDir`
(properties present, schema absent) succeeds with an empty schema. -/
theorem C5_hudi_mandatory_files :
    (∀ (p : String) (dir : HudiDir),
      dir.dirExists = true → dir.propertiesLines = none →
      analyze_hudi_metadata p dir = .error .propertiesNotFound)
    ∧ (∀ (p : String) (dir : HudiDir) (r : HudiResult),
      analyze_hudi_metadata p dir = .ok r → dir.schemaFile = none →
      r.schema = [])
    ∧ (analyze_hudi_metadata "/t" c5HudiDir).map (fun r => r.schema) =
        .ok [] := by
  refine ⟨?_, ?_, by rfl⟩
  · intro p dir hex hprop
    unfold analyze_hudi_metadata
    rw [hex, hprop]
  · intro p dir r h hs
    unfold analyze_hudi_metadata at h
    cases hex : dir.dirExists with
    | false => rw [hex] at h; cases h
    | true =>
      rw [hex] at h
      cases hprop : dir.propertiesLines with
      | none => rw [hprop] at h; cases h
      | some propLines =>
        rw [hprop] at h
        dsimp only at h
        cases hps : parseProperties propLines with
        | error e => rw [hps] at h; cases h
        | ok properties =>
          rw [hps] at h
          dsimp only at h
          cases hsl : hudiStatsLoop (examinedCommits dir) with
          | error e => rw [hsl] at h; cases h
          | ok totals =>
            rw [hsl] at h
            dsimp only at h
            cases h
            exact buildHudi_schema_nil hs

/-- The analyzer result on `c5HudiDir`. -/
def c5Result : HudiResult :=
  { schema := []
    table_type := "Unknown"
    table_name := "t"
    base_path := "/t"
    compaction_strategy := "Unknown"
    archiving_enabled := "Unknown"
    files := .str "Unknown"
    size := "Unknown"
    rows := "Unknown"
    partitionsCount := 0
    versions := []
    partitions := []
    preview_data := none }

/-- C5 witness: both general parts of `C5_hudi_mandatory_files` applied to
concrete directories. -/
theorem C5_hudi_mandatory_files_witness :
    analyze_hudi_metadata "/t"
        (⟨true, none, none, none, (fun _ => .null), none⟩ : HudiDir) =
      .error .propertiesNotFound
    ∧ c5Result.schema = [] :=
  ⟨C5_hudi_mandatory_files.1 "/t" ⟨true, none, none, none, (fun _ => .null), none⟩
      rfl rfl,
    C5_hudi_mandatory_files.2.1 "/t" c5HudiDir c5Result (by rfl) rfl⟩

/-- C10: in the Hudi statistics, `files` is the sum over the examined
commits of the `fileAdded` list lengths and `rows` the comma-formatted sum
of the `recordsWritten` values — except that a sum of zero is reported as
the string `"Unknown"` instead of 0. -/
theorem C10_hudi_statistics :
    ∀ (p : String) (dir : HudiDir) (r : HudiResult) (F : Nat) (R : Int),
      analyze_hudi_metadata p dir = .ok r →
      hudiFilesSum (examinedCommits dir) = .ok F →
      hudiRowsSum (examinedCommits dir) = .ok R →
      r.files = (if F > 0 then StatVal.count F else StatVal.str "Unknown")
        ∧ r.rows = (if R > 0 then commaFormatInt R else "Unknown") := by
  intro p dir r F R h hF hR
  unfold analyze_hudi_metadata at h
  cases hex : dir.dirExists with
  | false => rw [hex] at h; cases h
  | true =>
    rw [hex] at h
    cases hprop : dir.propertiesLines with
    | none => rw [hprop] at h; cases h
    | some propLines =>
      rw [hprop] at h
      dsimp only at h
      cases hps : parseProperties propLines with
      | error e => rw [hps] at h; cases h
      | ok properties =>
        rw [hps] at h
        dsimp only at h
        cases hsl : hudiStatsLoop (examinedCommits dir) with
        | error e => rw [hsl] at h; cases h
        | ok totals =>
          rw [hsl] at h
          dsimp only at h
          cases h
          obtain ⟨hF2, hR2⟩ := hudiStatsLoop_sums hsl
          rw [hF] at hF2
          rw [hR] at hR2
          cases hF2
          cases hR2
          constructor
          · rfl
          · rfl

/-- A commit document with two added files and 1500 written records. -/
def c10Commit : Json :=
  .obj [("commitTime", .str "20240101"),
        ("fileAdded", .arr [.str "f1", .str "f2"]),
        ("recordsWritten", .num 1500)]

/-- A `.hoodie` directory with one commit file. -/
def c10HudiDir : HudiDir :=
  ⟨true, some ["hoodie.table.name=tbl"], none, some ["a.commit"],
    (fun _ => c10Commit), none⟩

/-- The analyzer result on `c10HudiDir`. -/
def c10Result : HudiResult :=
  { schema := []
    table_type := "Unknown"
    table_name := "tbl"
    base_path := "/t"
    compaction_strategy := "Unknown"
    archiving_enabled := "Unknown"
    files := .count 2
    size := "Unknown"
    rows := "1,500"
    partitionsCount := 0
    versions := [⟨.str "20240101", .str "20240101", .str "Unknown"⟩]
    partitions := []
    preview_data := none }

/-- C10 witness: `C10_hudi_statistics` applied to `c10HudiDir`, whose single
examined commit added 2 files and wrote 1500 records. -/
theorem C10_hudi_statistics_witness :
    c10Result.files =
      (if 2 > 0 then StatVal.count 2 else StatVal.str "Unknown")
    ∧ c10Result.rows =
      (if (1500 : Int) > 0 then commaFormatInt 1500 else "Unknown") :=
  C10_hudi_statistics "/t" c10HudiDir c10Result 2 1500 (by rfl) (by rfl) (by rfl)

theorem contains_iff_mem [BEq α] [LawfulBEq α] {l : List α} {a : α} :
    l.contains a = true ↔ a ∈ l := List.elem_iff

theorem buildDelta_flag (p : String) (c : DeltaCollected) :
    ∀ row ∈ (buildDelta p c).schema,
      (row.partitionFlag = "Yes" ↔ row.column ∈ (buildDelta p c).partitions) := by
  intro row hrow
  unfold buildDelta at hrow ⊢
  dsimp only at hrow ⊢
  generalize hP : (if schemaTruthy c.schema = true then
      findPartitionCols c.actions else []) = P at hrow ⊢
  obtain ⟨f, hf, rfl⟩ := List.mem_map.mp hrow
  dsimp only
  cases hc : P.contains f.1 with
  | true =>
    constructor
    · intro _
      exact contains_iff_mem.mp hc
    · intro _
      rfl
  | false =>
    constructor
    · intro hno
      exact absurd hno (by decide)
    · intro hmem
      exact absurd (contains_iff_mem.mpr hmem) (by rw [hc]; decide)

theorem iceberg_flag (m : Json) :
    ∀ row ∈ (analyze_iceberg_metadata m).schema,
      (row.partitionFlag = "Yes" ↔
        row.column ∈ (analyze_iceberg_metadata m).partitions) := by
  intro row hrow
  unfold analyze_iceberg_metadata at hrow ⊢
  dsimp only at hrow ⊢
  generalize hP : icebergPartitionFields m = P at hrow ⊢
  obtain ⟨f, hf, rfl⟩ := List.mem_map.mp hrow
  dsimp only
  cases hc : P.contains f.1 with
  | true =>
    constructor
    · intro _
      exact contains_iff_mem.mp hc
    · intro _
      rfl
  | false =>
    constructor
    · intro hno
      exact absurd hno (by decide)
    · intro hmem
      exact absurd (contains_iff_mem.mpr hmem) (by rw [hc]; decide)

theorem jsonNameInStrings_iff {name : Json} {l : List String} :
    jsonNameInStrings name l = true ↔ name ∈ l.map Json.str := by
  unfold jsonNameInStrings
  cases name with
  | str s =>
    rw [contains_iff_mem]
    constructor
    · intro h
      exact List.mem_map.mpr ⟨s, h, rfl⟩
    · intro h
      obtain ⟨x, hx, hxx⟩ := List.mem_map.mp h
      cases hxx
      exact hx
  | null => simp [List.mem_map]
  | bool b => simp [List.mem_map]
  | num n => simp [List.mem_map]
  | arr xs => simp [List.mem_map]
  | obj kvs => simp [List.mem_map]

theorem buildHudi_flag (p : String) (dir : HudiDir)
    (props : List (String × String)) (totals : Nat × Int) :
    ∀ row ∈ (buildHudi p dir props totals).schema,
      (row.partitionFlag = "Yes" ↔
        row.column ∈ (buildHudi p dir props totals).partitions.map Json.str) := by
  intro row hrow
  unfold buildHudi at hrow ⊢
  dsimp only at hrow ⊢
  generalize hP : hudiPartitionFields props = P at hrow ⊢
  obtain ⟨f, hf, rfl⟩ := List.mem_map.mp hrow
  dsimp only
  cases hc : jsonNameInStrings f.1 P with
  | true =>
    exact ⟨fun _ => jsonNameInStrings_iff.mp hc, fun _ => rfl⟩
  | false =>
    constructor
    · intro hno
      exact absurd hno (by decide)
    · intro hmem
      exact absurd (jsonNameInStrings_iff.mpr hmem) (by rw [hc]; decide)

theorem s3_parquet_flag (p : String) (listing : List S3ParquetFile)
    (r : S3ParquetResult) (h : analyze_s3_parquet p listing = .ok r) :
    ∀ row ∈ r.schema, (row.partitionFlag = "Yes" ↔ row.column ∈ r.partitions) := by
  unfold analyze_s3_parquet at h
  cases hpf : listing.filter (fun f => strEndsWith f.key ".parquet") with
  | nil => rw [hpf] at h; cases h
  | cons first rest =>
    rw [hpf] at h
    dsimp only at h
    cases h
    intro row hrow
    dsimp only at hrow ⊢
    generalize hC : infer_partitions_from_paths
        ((first :: rest).map (fun f => (⟨f.key, f.size⟩ : S3Object))) = C
      at hrow ⊢
    rw [updatePartitionFlags_eq] at hrow
    obtain ⟨r0, hr0, rfl⟩ := List.mem_map.mp hrow
    obtain ⟨fld, hfld, rfl⟩ := List.mem_map.mp hr0
    unfold updAll
    dsimp only
    cases hc : C.contains fld.name with
    | true =>
      exact ⟨fun _ => contains_iff_mem.mp hc, fun _ => rfl⟩
    | false =>
      constructor
      · intro hno
        have hno2 : ("No" : String) = "Yes" := hno
        exact absurd hno2 (by decide)
      · intro hmem
        have hmem2 : fld.name ∈ C := hmem
        exact absurd (contains_iff_mem.mpr hmem2) (by rw [hc]; decide)

/-- C1: for each of the four analyzers (Parquet dataset, Delta, Iceberg,
Hudi), every successful run satisfies the consistency invariant: a schema
row's `Partition` flag is `"Yes"` exactly when its column name is a member
of the returned `partitions` collection. -/
theorem C1_partition_flag_invariant :
    (∀ (p : String) (listing : List S3ParquetFile) (r : S3ParquetResult),
      analyze_s3_parquet p listing = .ok r →
      ∀ row ∈ r.schema,
        (row.partitionFlag = "Yes" ↔ row.column ∈ r.partitions))
    ∧ (∀ (p : String) (dir : DeltaDir) (r : DeltaResult),
      analyze_delta_log p dir = .ok r →
      ∀ row ∈ r.schema,
        (row.partitionFlag = "Yes" ↔ row.column ∈ r.partitions))
    ∧ (∀ (m : Json), ∀ row ∈ (analyze_iceberg_metadata m).schema,
        (row.partitionFlag = "Yes" ↔
          row.column ∈ (analyze_iceberg_metadata m).partitions))
    ∧ (∀ (p : String) (dir : HudiDir) (r : HudiResult),
      analyze_hudi_metadata p dir = .ok r →
      ∀ row ∈ r.schema,
        (row.partitionFlag = "Yes" ↔ row.column ∈ r.partitions.map Json.str)) := by
  refine ⟨s3_parquet_flag, ?_, iceberg_flag, ?_⟩
  · intro p dir r h
    unfold analyze_delta_log at h
    cases hc : deltaCollect dir with
    | error e => rw [hc] at h; cases h
    | ok c =>
      rw [hc] at h
      simp only [Except.map] at h
      cases h
      exact buildDelta_flag p c
  · intro p dir r h
    unfold analyze_hudi_metadata at h
    cases hex : dir.dirExists with
    | false => rw [hex] at h; cases h
    | true =>
      rw [hex] at h
      cases hprop : dir.propertiesLines with
      | none => rw [hprop] at h; cases h
      | some propLines =>
        rw [hprop] at h
        dsimp only at h
        cases hps : parseProperties propLines with
        | error e => rw [hps] at h; cases h
        | ok properties =>
          rw [hps] at h
          dsimp only at h
          cases hsl : hudiStatsLoop (examinedCommits dir) with
          | error e => rw [hsl] at h; cases h
          | ok totals =>
            rw [hsl] at h
            dsimp only at h
            cases h
            exact buildHudi_flag p dir properties totals

/-- A one-column Hive-partitioned dataset listing. -/
def c1PqListing : List S3ParquetFile :=
  [⟨"t/y=1/f.parquet", 3, ⟨[⟨"y", "string"⟩], none, 1, []⟩⟩]

/-- The analyzer result on `c1PqListing`. -/
def c1PqResult : S3ParquetResult :=
  ⟨[⟨"y", "string", "Yes"⟩], "Unknown", "s3://b/t", 1, 1, 3, "Unknown", 1,
    [], ["y"]⟩

/-- A one-action Delta log declaring column `a` as a partition column. -/
def c1DeltaDir : DeltaDir :=
  ⟨["00000000000000000001.json"],
    fun _ => .textLines [.obj [("metaData", .obj [
      ("schema", .obj [("fields",
        .arr [.obj [("name", .str "a"), ("type", .str "long")]])]),
      ("partitionColumns", .arr [.str "a"])])]]⟩

/-- The analyzer result on `c1DeltaDir`. -/
def c1DeltaResult : DeltaResult :=
  ⟨[⟨.str "a", .str "long", "Yes"⟩], "Delta", .str "Unknown", "/t", 0,
    "Unknown", "Unknown", 1, [], [.str "a"]⟩

/-- An Iceberg document whose only column is also its partition field. -/
def c1IceDoc : Json :=
  .obj [("current-schema", .obj [("fields",
          .arr [.obj [("name", .str "y"), ("type", .str "string")]])]),
        ("partition-spec", .obj [("fields", .arr [.obj [("name", .str "y")]])])]

/-- A `.hoodie` directory whose schema column `y` is the partition field. -/
def c1HudiDir : HudiDir :=
  ⟨true, some ["hoodie.table.partition.fields=y"],
    some (.obj [("fields",
      .arr [.obj [("name", .str "y"), ("type", .str "string")]])]),
    none, (fun _ => .null), none⟩

/-- The analyzer result on `c1HudiDir`. -/
def c1HudiResult : HudiResult :=
  ⟨[⟨.str "y", .str "string", "Yes"⟩], "Unknown", "Unknown", "/t", "Unknown",
    "Unknown", .str "Unknown", "Unknown", "Unknown", 1, [], ["y"], none⟩

/-- C1 witness: the invariant of `C1_partition_flag_invariant` instantiated
at a concrete partitioned row of each of the four analyzers. -/
theorem C1_partition_flag_invariant_witness :
    ((⟨"y", "string", "Yes"⟩ : ParquetSchemaRow).partitionFlag = "Yes" ↔
      (⟨"y", "string", "Yes"⟩ : ParquetSchemaRow).column ∈ c1PqResult.partitions)
    ∧ ((⟨.str "a", .str "long", "Yes"⟩ : JsonSchemaRow).partitionFlag = "Yes" ↔
      (⟨.str "a", .str "long", "Yes"⟩ : JsonSchemaRow).column ∈
        c1DeltaResult.partitions)
    ∧ ((⟨.str "y", .str "string", "Yes"⟩ : JsonSchemaRow).partitionFlag = "Yes" ↔
      (⟨.str "y", .str "string", "Yes"⟩ : JsonSchemaRow).column ∈
        (analyze_iceberg_metadata c1IceDoc).partitions)
    ∧ ((⟨.str "y", .str "string", "Yes"⟩ : JsonSchemaRow).partitionFlag = "Yes" ↔
      (⟨.str "y", .str "string", "Yes"⟩ : JsonSchemaRow).column ∈
        c1HudiResult.partitions.map Json.str) :=
  ⟨C1_partition_flag_invariant.1 "s3://b/t" c1PqListing c1PqResult (by rfl)
      ⟨"y", "string", "Yes"⟩ (by decide),
    C1_partition_flag_invariant.2.1 "/t/_delta_log" c1DeltaDir c1DeltaResult
      (by rfl) ⟨.str "a", .str "long", "Yes"⟩ (by decide),
    C1_partition_flag_invariant.2.2.1 c1IceDoc
      ⟨.str "y", .str "string", "Yes"⟩ (by decide),
    C1_partition_flag_invariant.2.2.2 "/t" c1HudiDir c1HudiResult (by rfl)
      ⟨.str "y", .str "string", "Yes"⟩ (by decide)⟩

/-- A checkpoint table whose single row's `add` action carries the table
schema (one column `a`). -/
def c2CkptRows : List CkptRow :=
  [⟨some (.obj [("metaData", .obj [("schema",
      .obj [("fields", .arr [.obj [("name", .str "a"), ("type", .str "long")]])])])]),
    none⟩]

/-- A `_delta_log` with checkpoint version 1 and a json log of the higher
version 5 whose `metaData` declares a different schema. -/
def c2d1 : DeltaDir :=
  ⟨["00000000000000000001.checkpoint.parquet", "00000000000000000005.json"],
    fun n => if n = "00000000000000000001.checkpoint.parquet" then .table c2CkptRows
      else .textLines [.obj [("metaData", .obj [("schema",
        .obj [("fields", .arr [.obj [("name", .str "b"), ("type", .str "int")]])])])]]⟩

/-- The same log with the json content replaced. -/
def c2d2 : DeltaDir :=
  ⟨["00000000000000000001.checkpoint.parquet", "00000000000000000005.json"],
    fun n => if n = "00000000000000000001.checkpoint.parquet" then .table c2CkptRows
      else .textLines []⟩

/-- The analyzer result on `c2d1`: the checkpoint's schema `a`, not the
json log's `b`. -/
def c2Result : DeltaResult :=
  ⟨[⟨.str "a", .str "long", "No"⟩], "Delta", .str "Unknown", "/t", 0,
    "Unknown", "Unknown", 0, [], []⟩

/-- C2: with at least one checkpoint listed, the Delta analyzer's result
does not depend on the json log contents at all (only their listed names),
and the returned schema is the one extracted from the rows of the latest
checkpoint — even when a json log has a higher version number. -/
theorem C2_checkpoint_precedence :
    (∀ (p : String) (d1 d2 : DeltaDir),
      d1.listing = d2.listing →
      (∀ n ∈ checkpointNames d1, d1.read n = d2.read n) →
      checkpointNames d1 ≠ [] →
      analyze_delta_log p d1 = analyze_delta_log p d2)
    ∧ (∀ (p : String) (dir : DeltaDir) (sorted : List String)
        (latest : String) (rows : List CkptRow) (r : DeltaResult),
      sortByDeltaVersion (checkpointNames dir) = .ok sorted →
      sorted.getLast? = some latest →
      dir.read latest = .table rows →
      analyze_delta_log p dir = .ok r →
      r.schema = (if schemaTruthy (ckptSchemaScan rows none) = true then
          extractJsonFields ((ckptSchemaScan rows none).getD .null) else []).map
        (fun f => ⟨f.1, f.2, "No"⟩)) := by
  constructor
  · intro p d1 d2 hl hr hne
    unfold analyze_delta_log
    rw [deltaCollect_ckpt_congr hl hr hne]
  · intro p dir sorted latest rows r hs hlast hread h
    unfold analyze_delta_log at h
    cases hcol : deltaCollect dir with
    | error e => rw [hcol] at h; cases h
    | ok c =>
      rw [hcol] at h
      simp only [Except.map] at h
      cases h
      unfold deltaCollect at hcol
      simp only [bind, Except.bind] at hcol
      rw [hs] at hcol
      dsimp only at hcol
      cases hj : sortByDeltaVersion (jsonLogNames dir) with
      | error e => rw [hj] at hcol; cases hcol
      | ok sj =>
        rw [hj] at hcol
        dsimp only at hcol
        rw [hlast] at hcol
        dsimp only at hcol
        rw [hread] at hcol
        dsimp only at hcol
        cases hcol
        unfold buildDelta
        dsimp only
        rw [findPartitionCols_rows, ite_self]
        rfl

/-- C2 witness: `C2_checkpoint_precedence` on the concrete pair `c2d1`,
`c2d2` (same listing, json log contents differ) and on `c2d1`'s checkpoint:
the json log of version 5 never influences the result and the schema is the
checkpoint's. -/
theorem C2_checkpoint_precedence_witness :
    analyze_delta_log "/t/_delta_log" c2d1 = analyze_delta_log "/t/_delta_log" c2d2
    ∧ c2Result.schema =
      (if schemaTruthy (ckptSchemaScan c2CkptRows none) = true then
          extractJsonFields ((ckptSchemaScan c2CkptRows none).getD .null) else []).map
        (fun f => ⟨f.1, f.2, "No"⟩) :=
  ⟨C2_checkpoint_precedence.1 "/t/_delta_log" c2d1 c2d2 rfl (by decide) (by decide),
    C2_checkpoint_precedence.2 "/t/_delta_log" c2d1
      ["00000000000000000001.checkpoint.parquet"]
      "00000000000000000001.checkpoint.parquet" c2CkptRows c2Result
      (by rfl) (by rfl) (by rfl) (by rfl)⟩

/-- Fifteen json log file names, versions 1 to 15. -/
def c3Names : List String :=
  ["1.json", "2.json", "3.json", "4.json", "5.json", "6.json", "7.json",
   "8.json", "9.json", "10.json", "11.json", "12.json", "13.json", "14.json",
   "15.json"]

/-- A `metaData` action declaring schema and partition column `a`. -/
def c3MdAction : Json := .obj [("metaData", .obj [("schema",
  .obj [("fields", .arr [.obj [("name", .str "a"), ("type", .str "long")]])]),
  ("partitionColumns", .arr [.str "a"])])]

/-- A `_delta_log` with no checkpoint and 15 json logs whose only
`metaData` action sits in log 3, outside the last-10 window. -/
def c3DeltaDir : DeltaDir :=
  ⟨c3Names, fun n => if n = "3.json" then .textLines [c3MdAction]
    else .textLines [.obj [("commitInfo", .obj [("version", .num 1),
      ("timestamp", .str "t"), ("operation", .str "WRITE")])]]⟩

/-- `c3DeltaDir` with the content of log 3 replaced by an empty log. -/
def c3DeltaDir2 : DeltaDir :=
  ⟨c3Names, fun n => if n = "3.json" then .textLines []
    else .textLines [.obj [("commitInfo", .obj [("version", .num 1),
      ("timestamp", .str "t"), ("operation", .str "WRITE")])]]⟩

/-- C3: with no checkpoint, the Delta analyzer's result depends only on the
listing and the contents of the last 10 json logs after ascending numeric
sort; on the concrete 15-log directory whose only `metaData` action is in
log 3 (outside the window), the returned schema and partition set are
empty. -/
theorem C3_json_fallback_window :
    (∀ (p : String) (d1 d2 : DeltaDir) (sorted : List String),
      d1.listing = d2.listing →
      checkpointNames d1 = [] →
      sortByDeltaVersion (jsonLogNames d1) = .ok sorted →
      (∀ n ∈ takeLast 10 sorted, d1.read n = d2.read n) →
      analyze_delta_log p d1 = analyze_delta_log p d2)
    ∧ (analyze_delta_log "/t/_delta_log" c3DeltaDir).map
        (fun r => (r.schema, r.partitions)) = .ok ([], []) := by
  constructor
  · intro p d1 d2 sorted hl hck hs hr
    unfold analyze_delta_log
    rw [deltaCollect_json_congr hl hck hs hr]
  · rfl

/-- C3 witness: `C3_json_fallback_window` applied to the concrete pair
`c3DeltaDir`, `c3DeltaDir2`, which differ exactly in the content of log 3:
the result is unchanged. -/
theorem C3_json_fallback_window_witness :
    analyze_delta_log "/t/_delta_log" c3DeltaDir =
      analyze_delta_log "/t/_delta_log" c3DeltaDir2 :=
  C3_json_fallback_window.1 "/t/_delta_log" c3DeltaDir c3DeltaDir2
    ["1.json", "2.json", "3.json", "4.json", "5.json", "6.json", "7.json",
     "8.json", "9.json", "10.json", "11.json", "12.json", "13.json",
     "14.json", "15.json"]
    rfl (by decide) (by rfl) (by decide)

/-- A checkpoint row that carries a `commitInfo` block (and no `add`). -/
def c6Row : CkptRow := ⟨none, some (.obj [("operation", .str "WRITE")])⟩

/-- A `_delta_log` whose only file is a checkpoint with that single row. -/
def c6DeltaDir : DeltaDir :=
  ⟨["00000000000000000002.checkpoint.parquet"], fun _ => .table [c6Row]⟩

/-- C6 counterexample: the claim says every collected action containing a
`commitInfo` block yields a version entry, whether checkpoint row or json
action; but on `c6DeltaDir` the single collected action is a checkpoint row
carrying `commitInfo` and the returned versions list is empty — delta.py:150
demands `isinstance(action, dict)` and itertuples rows are namedtuples, not
dicts. -/
theorem C6_counterexample :
    deltaCollect c6DeltaDir = .ok ⟨none, [DeltaAction.row c6Row]⟩
    ∧ c6Row.commitInfo.isSome = true
    ∧ (analyze_delta_log "p" c6DeltaDir).map (fun r => r.versions) = .ok [] :=
  ⟨rfl, rfl, rfl⟩

theorem deltaVersions_rows (rows : List CkptRow) :
    deltaVersions (rows.map DeltaAction.row) = [] := by
  induction rows with
  | nil => rfl
  | cons r rs ih => simpa [deltaVersions, List.filterMap_cons] using ih

/-- C6 amended: the versions list contains one entry, in encounter order,
for every collected action that is a parsed JSON dict carrying a
`commitInfo` key; checkpoint rows never contribute, so whenever a
checkpoint is used the versions list is empty. -/
theorem C6_versions_from_dict_actions :
    (∀ (p : String) (dir : DeltaDir) (r : DeltaResult),
      analyze_delta_log p dir = .ok r → checkpointNames dir ≠ [] →
      r.versions = [])
    ∧ (∀ (p : String) (dir : DeltaDir) (c : DeltaCollected) (r : DeltaResult),
      deltaCollect dir = .ok c → analyze_delta_log p dir = .ok r →
      r.versions = (collectedCommitInfos c.actions).map versionRowOfCommitInfo) := by
  constructor
  · intro p dir r h hne
    unfold analyze_delta_log at h
    cases hcol : deltaCollect dir with
    | error e => rw [hcol] at h; cases h
    | ok c =>
      rw [hcol] at h
      simp only [Except.map] at h
      cases h
      unfold deltaCollect at hcol
      simp only [bind, Except.bind] at hcol
      cases hs : sortByDeltaVersion (checkpointNames dir) with
      | error e => rw [hs] at hcol; cases hcol
      | ok sorted =>
        rw [hs] at hcol
        dsimp only at hcol
        cases hj : sortByDeltaVersion (jsonLogNames dir) with
        | error e => rw [hj] at hcol; cases hcol
        | ok sj =>
          rw [hj] at hcol
          dsimp only at hcol
          have hsne : sorted ≠ [] := sortByDeltaVersion_ok_ne_nil hs hne
          obtain ⟨latest, hlast⟩ : ∃ a, sorted.getLast? = some a := by
            cases hsl : sorted.getLast? with
            | none => exact absurd (List.getLast?_eq_none_iff.mp hsl) hsne
            | some a => exact ⟨a, rfl⟩
          rw [hlast] at hcol
          dsimp only at hcol
          cases hread : dir.read latest with
          | textLines as => rw [hread] at hcol; cases hcol
          | table rows =>
            rw [hread] at hcol
            dsimp only at hcol
            cases hcol
            unfold buildDelta
            dsimp only
            exact deltaVersions_rows rows
  · intro p dir c r hcol h
    unfold analyze_delta_log at h
    rw [hcol] at h
    simp only [Except.map] at h
    cases h
    unfold buildDelta
    dsimp only
    exact deltaVersions_eq c.actions

/-- A json log whose single action carries a `commitInfo` block. -/
def c6CI : Json := .obj [("commitInfo", .obj [("version", .num 7),
  ("timestamp", .str "ts"), ("operation", .str "WRITE")])]

/-- A `_delta_log` with only that json log. -/
def c6JsonDir : DeltaDir :=
  ⟨["00000000000000000007.json"], fun _ => .textLines [c6CI]⟩

/-- The analyzer result on `c6JsonDir`. -/
def c6JsonResult : DeltaResult :=
  ⟨[], "Delta", .str "ts", "/t", 0, "Unknown", "Unknown", 0,
    [⟨.num 7, .str "ts", .str "WRITE"⟩], []⟩

/-- The analyzer result on `c6DeltaDir`. -/
def c6CkptResult : DeltaResult :=
  ⟨[], "Delta", .str "Unknown", "p", 0, "Unknown", "Unknown", 0, [], []⟩

/-- C6 witness: `C6_versions_from_dict_actions` applied to the concrete
checkpoint directory (empty versions) and to a json log with one
`commitInfo` action (one version row, in order). -/
theorem C6_versions_from_dict_actions_witness :
    c6CkptResult.versions = []
    ∧ c6JsonResult.versions =
      (collectedCommitInfos [DeltaAction.jsonAct c6CI]).map versionRowOfCommitInfo :=
  ⟨C6_versions_from_dict_actions.1 "p" c6DeltaDir c6CkptResult (by rfl) (by decide),
    C6_versions_from_dict_actions.2 "/t/_delta_log" c6JsonDir
      ⟨none, [DeltaAction.jsonAct c6CI]⟩ c6JsonResult (by rfl) (by rfl)⟩
